import Mathlib

set_option maxRecDepth 20000
set_option maxHeartbeats 1000000

/-!
Verification development for the Stellarium solar-system ephemeris core
(`src/core/modules/SolarSystem.cpp`).

Part 1 embeds the body-catalogue loader (`SolarSystem::loadPlanets`, both the
two-file driver and the per-file overload), the removal operation
(`SolarSystem::removePlanet`) and the query operations
(`searchByEnglishName`, `listAllObjects`, `listAllObjectsByType`,
`getObjectsList`).  These are discrete (strings, lists, rational field
values), so the embedding is computable.

Part 2 embeds the position engine (`SolarSystem::computePositions`) and the
eclipse calculator (`SolarSystem::getEclipseFactor`) over the real numbers.

Conventions for part 1:
* An ini `[section]` is a record of the fields `loadPlanets` reads.  A field
  read through `pd.value(key, default)` is an `Option` (`none` = key absent);
  `pd.value(key)` with no default yields an empty `QVariant`, whose
  `toString`/`toDouble` give `""`/`0.0`, reproduced with `getD`.
* Floating point values are modelled as rationals.  The only numeric
  operations the loader performs that influence control flow or the
  catalogue contents are comparisons against `0` and against the `-1e100`
  sentinel, which are exact.
* `Orbit` objects are identified by a freshness counter (`nextOrbit`), which
  stands for the heap pointer of the `new EllipticalOrbit`/`new CometOrbit`.
  The orbital elements stored inside the orbit object (and the VSOP87 frame
  angles derived from the parent's rotation elements with trigonometry) are
  not inspected by any claim, so the orbit object itself is opaque.
* Attributes of the constructed bodies that no claim reads (textures, colors,
  rotation elements, rings, magnitudes) are omitted from the `Planet` record.
-/

namespace Stellarium

/-- One `[section]` of an `ssystem_*.ini` catalogue file, as `loadPlanets`
reads it through `QSettings`. -/
structure IniSection where
  secname : String
  name : String
  parent : Option String
  coord_func : String
  typeStr : String
  orbit_Epoch : Option ℚ
  orbit_Eccentricity : Option ℚ
  orbit_PericenterDistance : Option ℚ
  orbit_SemiMajorAxis : Option ℚ
  orbit_MeanMotion : Option ℚ
  orbit_Period : Option ℚ
  orbit_Inclination : Option ℚ
  orbit_AscendingNode : Option ℚ
  orbit_ArgOfPericenter : Option ℚ
  orbit_LongOfPericenter : Option ℚ
  orbit_MeanAnomaly : Option ℚ
  orbit_MeanLongitude : Option ℚ
  orbit_TimeAtPericenter : Option ℚ
  orbit_good : Option ℚ
  radius : ℚ
  deriving DecidableEq

/-- Declared parent of a section: `pd.value(secname+"/parent", "Sun")`. -/
def strParentOf (sec : IniSection) : String := sec.parent.getD "Sun"

/-- The `-1e100` sentinel used by `loadPlanets` for absent orbital elements. -/
def bigNeg : ℚ := -(10 ^ 100 : ℚ)

/-- Split a character list at whitespace, keeping empty chunks. -/
def splitWSAux : List Char → List Char → List (List Char)
  | [], acc => [acc.reverse]
  | c :: rest, acc =>
    if c.isWhitespace then acc.reverse :: splitWSAux rest []
    else splitWSAux rest (c :: acc)

/-- Join words with single spaces. -/
def joinSpace : List (List Char) → List Char
  | [] => []
  | [w] => w
  | w :: rest => w ++ ' ' :: joinSpace rest

/-- Modelled from the spec: `QString::simplified()` (applied to the body name
in stage 3) trims leading/trailing whitespace and collapses internal runs of
whitespace to single spaces; `QString.cpp` is not part of the sources. -/
def qSimplified (s : String) : String :=
  String.mk (joinSpace ((splitWSAux s.data []).filter (fun w => w ≠ [])))

/-- Substring test on character lists. -/
def containsSub : List Char → List Char → Bool
  | [], pat => pat.isEmpty
  | c :: rest, pat => pat.isPrefixOf (c :: rest) || containsSub rest pat

/-- Modelled from the spec: `QString::contains` substring test, used for the
`!englishName.contains("Pluto")` exception in the minor-body branch. -/
def strContains (s pat : String) : Bool := containsSub s.data pat.data

/-- Overwriting insert of a Qt `QMap<QString,QString>` (`map[k] = v`).  Only
lookups are performed on these maps, so the entry order is irrelevant. -/
def qmapSet (m : List (String × String)) (k v : String) : List (String × String) :=
  match m with
  | [] => [(k, v)]
  | (k', v') :: rest => if k = k' then (k, v) :: rest else (k', v') :: qmapSet rest k v

/-- Stage 1 of `loadPlanets(filePath)`: map from body english name to the
section it came from (`secNameMap`). -/
def secNameMap (sections : List IniSection) : List (String × String) :=
  sections.foldl (fun m sec => qmapSet m sec.name sec.secname) []

/-- Stage 1 of `loadPlanets(filePath)`: map from body english name to declared
parent name (`parentMap`); only entries with a parent other than `"none"`/`""`
and a nonempty body name are recorded. -/
def parentMap (sections : List IniSection) : List (String × String) :=
  sections.foldl (fun m sec =>
    let strParent := strParentOf sec
    if strParent ≠ "none" ∧ strParent ≠ "" ∧ sec.name ≠ "" then
      qmapSet m sec.name strParent
    else m) []

/-- Stage 2a dependency-depth walk: follow `parentMap` from a body name,
counting the steps, as the `while(parentMap.contains(p) && parentMap[p]!="none")`
loop does.  `fuel` bounds the walk; `none` means the fuel ran out, which in the
C++ is an infinite loop (cyclic parent declarations). -/
def levelAux (pm : List (String × String)) (fuel : ℕ) (p : String) : Option ℕ :=
  match List.lookup p pm with
  | none => some 0
  | some q =>
    if q = "none" then some 0
    else
      match fuel with
      | 0 => none
      | fuel' + 1 => (levelAux pm fuel' q).map (· + 1)

/-- Dependency depth of a body name.  A terminating walk visits pairwise
distinct keys of `parentMap`, so `parentMap.length` steps of fuel are enough
whenever the C++ loop terminates at all. -/
def depLevel (sections : List IniSection) (name : String) : Option ℕ :=
  levelAux (parentMap sections) (parentMap sections).length name

/-- Insertion into the Qt 5 `QMultiMap<int,QString>` `depLevelMap`: the new
node is placed at the lower bound of its key, i.e. after all strictly smaller
keys and before all entries with an equal or larger key.  Iteration of the
map (stage 2b) therefore yields keys in ascending order and, within one key,
values from most recently to least recently inserted, as documented for
`QMap::values(key)`. -/
def qmmInsert (m : List (ℕ × String)) (k : ℕ) (v : String) : List (ℕ × String) :=
  match m with
  | [] => [(k, v)]
  | (k', v') :: rest =>
    if k ≤ k' then (k, v) :: (k', v') :: rest else (k', v') :: qmmInsert rest k v

/-- Stage 2a of `loadPlanets(filePath)`: build `depLevelMap`, inserting each
section's `(depth, secname)` in source order.  `secNameMap[englishName]`
returns `""` if the name key were absent (it never is, stage 1 records every
section).  `none` propagates a non-terminating depth walk. -/
def depLevelMapM (sections : List IniSection) : Option (List (ℕ × String)) :=
  sections.foldlM (fun m sec =>
    (depLevel sections sec.name).map (fun lv =>
      qmmInsert m lv ((List.lookup sec.name (secNameMap sections)).getD ""))) []

/-- Stage 2b of `loadPlanets(filePath)`: iterate `depLevelMap` and collect the
section names — the `CatalogueOrder`. -/
def orderedSections (sections : List IniSection) : Option (List String) :=
  (depLevelMapM sections).map (List.map Prod.snd)

/-- Strict precedence of two values in a list: `a` occurs at some position
strictly before an occurrence of `b`. -/
def Before (l : List String) (a b : String) : Prop :=
  ∃ i j, i < j ∧ l.get? i = some a ∧ l.get? j = some b

/-- Key-sortedness of a multimap entry list (ascending, duplicates allowed). -/
def KSorted (m : List (ℕ × String)) : Prop :=
  List.Pairwise (fun e f => e.1 ≤ f.1) m

/-- Building the `depLevelMap` from an explicit `(depth, secname)` entry
sequence. -/
def qmmBuild (es : List (ℕ × String)) : List (ℕ × String) :=
  es.foldl (fun m e => qmmInsert m e.1 e.2) []

/-- The stage-2a entry contributed by one section. -/
def depEntry (sections : List IniSection) (sec : IniSection) : Option (ℕ × String) :=
  (depLevel sections sec.name).map
    (fun lv => (lv, (List.lookup sec.name (secNameMap sections)).getD ""))

/-- The stage-2a entries of all sections, in source order. -/
def depEntries (sections : List IniSection) : Option (List (ℕ × String)) :=
  sections.mapM (depEntry sections)

/-- Modelled from the spec: the run-time body-category tag `Planet::pType`
(`Planet.hpp` is not part of the sources).  Minor categories (asteroid
family, plutino, comet, dwarf planet, TNO families) rank at and above
`isAsteroid`; the rank realises the `pType >= Planet::isAsteroid` and
`pType < Planet::isAsteroid` comparisons in `loadPlanets` and
`removePlanet`. -/
inductive PType where
  | isStar | isPlanet | isMoon | isObserver | isArtificial
  | isAsteroid | isPlutino | isComet | isDwarfPlanet
  | isCubewano | isSDO | isOCO | isUNDEFINED
  deriving DecidableEq

/-- Numeric rank of a `PType`, following the declaration order of the enum. -/
def PType.rank : PType → ℕ
  | .isStar => 0 | .isPlanet => 1 | .isMoon => 2 | .isObserver => 3
  | .isArtificial => 4 | .isAsteroid => 5 | .isPlutino => 6 | .isComet => 7
  | .isDwarfPlanet => 8 | .isCubewano => 9 | .isSDO => 10 | .isOCO => 11
  | .isUNDEFINED => 12

/-- Modelled from the spec: the `type` ini field to `pType` mapping performed
by the `Planet`/`MinorPlanet`/`Comet` constructors. -/
def pTypeOf (typeStr : String) : PType :=
  if typeStr = "star" then .isStar
  else if typeStr = "planet" then .isPlanet
  else if typeStr = "moon" then .isMoon
  else if typeStr = "observer" then .isObserver
  else if typeStr = "artificial" then .isArtificial
  else if typeStr = "asteroid" then .isAsteroid
  else if typeStr = "plutino" then .isPlutino
  else if typeStr = "comet" then .isComet
  else if typeStr = "dwarf planet" then .isDwarfPlanet
  else if typeStr = "cubewano" then .isCubewano
  else if typeStr = "scattered disc object" then .isSDO
  else if typeStr = "Oort cloud object" then .isOCO
  else .isUNDEFINED

/-- Modelled from the spec: `Planet::getPlanetTypeString`, the inverse mapping
from the stored `pType` tag back to the type string. -/
def pTypeToString : PType → String
  | .isStar => "star" | .isPlanet => "planet" | .isMoon => "moon"
  | .isObserver => "observer" | .isArtificial => "artificial"
  | .isAsteroid => "asteroid" | .isPlutino => "plutino" | .isComet => "comet"
  | .isDwarfPlanet => "dwarf planet" | .isCubewano => "cubewano"
  | .isSDO => "scattered disc object" | .isOCO => "Oort cloud object"
  | .isUNDEFINED => "undefined"

/-- One constructed solar-system body.  `parent` is the non-owning back
reference (by english name) and `satellites` the owned child list (by english
name); in the C++ both are `QSharedPointer`s.  `orbitPtr` is the identity of
the owned orbit object, when the body was built from `ell_orbit` or
`comet_orbit` elements. -/
structure Planet where
  englishName : String
  typeStr : String
  pType : PType
  orbitPtr : Option ℕ
  parent : Option String
  satellites : List String
  deriving DecidableEq

/-- Module state of `SolarSystem` as far as the catalogue is concerned:
`systemPlanets`, the `orbits` list (orbit object identities), the freshness
counter standing for heap allocation, and the `minorBodies` name list. -/
structure LoadState where
  systemPlanets : List Planet
  orbits : List ℕ
  nextOrbit : ℕ
  minorBodies : List String
  deriving DecidableEq

/-- Initial (empty) module state. -/
def emptyLoadState : LoadState := ⟨[], [], 0, []⟩

/-- Append a child name to the satellite list of the first planet called
`parentName` — the `parent->satellites.append(p)` link step (the parent was
found by a first-match scan of `systemPlanets`). -/
def appendSatellite (ps : List Planet) (parentName childName : String) : List Planet :=
  match ps with
  | [] => []
  | p :: rest =>
    if p.englishName = parentName then
      { p with satellites := p.satellites ++ [childName] } :: rest
    else p :: appendSatellite rest parentName childName

/-- The `*_special` positional-function names recognised by the `coord_func`
dispatch chain of `loadPlanets`, in source order. -/
def specialFuncNames : List String :=
  ["sun_special", "mercury_special", "venus_special", "earth_special",
   "lunar_special", "mars_special", "phobos_special", "deimos_special",
   "jupiter_special", "europa_special", "calisto_special", "io_special",
   "ganymede_special", "saturn_special", "mimas_special", "enceladus_special",
   "tethys_special", "dione_special", "rhea_special", "titan_special",
   "iapetus_special", "hyperion_special", "uranus_special", "miranda_special",
   "ariel_special", "umbriel_special", "titania_special", "oberon_special",
   "neptune_special", "pluto_special"]

/-- Every `coord_func` identifier that does not leave `posfunc` null. -/
def recognizedCoordFuncs : List String :=
  "ell_orbit" :: "comet_orbit" :: specialFuncNames

/-- Construction tail of stage 3: allocate the orbit object (when the branch
created one), select the body class from the `type` field (`MinorPlanet` for
the asteroid family except names containing "Pluto", `Comet` for comets,
plain `Planet` otherwise), record minor bodies, link the body under its
parent and push it onto `systemPlanets`. -/
def mkBody (st : LoadState) (sec : IniSection) (parent : Option Planet)
    (withOrbit : Bool) : LoadState :=
  let englishName := qSimplified sec.name
  let orbitPtr : Option ℕ := if withOrbit then some st.nextOrbit else none
  let st1 : LoadState :=
    if withOrbit then
      { st with orbits := st.orbits ++ [st.nextOrbit], nextOrbit := st.nextOrbit + 1 }
    else st
  let typeStr := sec.typeStr
  let isMinor :=
    (typeStr = "asteroid" ∨ typeStr = "dwarf planet" ∨ typeStr = "cubewano" ∨
     typeStr = "plutino" ∨ typeStr = "scattered disc object" ∨
     typeStr = "Oort cloud object") ∧ ¬ strContains englishName "Pluto"
  let isCometType := typeStr = "comet"
  let st2 : LoadState :=
    if isMinor ∨ isCometType then
      { st1 with minorBodies := st1.minorBodies ++ [englishName] }
    else st1
  let p : Planet :=
    { englishName := englishName, typeStr := typeStr, pType := pTypeOf typeStr,
      orbitPtr := orbitPtr, parent := parent.map (·.englishName), satellites := [] }
  let planets :=
    match parent with
    | some par => appendSatellite st2.systemPlanets par.englishName englishName
    | none => st2.systemPlanets
  { st2 with systemPlanets := planets ++ [p] }

/-- Stage 3 body of `loadPlanets(filePath)` after the parent has been
resolved: dispatch on `coord_func`.  `Except.error ()` is the
`exit(-1)` taken when `posfunc` is still null after the chain; `.ok st`
with an unchanged state is a `continue` that skips the record. -/
def processResolved (st : LoadState) (sec : IniSection) (parent : Option Planet) :
    Except Unit LoadState :=
  if sec.coord_func = "ell_orbit" then
    -- Read the orbital elements; a record with neither pericenter distance
    -- nor semi-major axis is skipped with a diagnostic.
    if sec.orbit_PericenterDistance.getD bigNeg ≤ 0 ∧
        sec.orbit_SemiMajorAxis.getD bigNeg ≤ bigNeg then
      .ok st
    else
      .ok (mkBody st sec parent true)
  else if sec.coord_func = "comet_orbit" then
    if sec.orbit_PericenterDistance.getD bigNeg ≤ 0 ∧
        sec.orbit_SemiMajorAxis.getD bigNeg ≤ bigNeg then
      .ok st
    -- Without orbit_TimeAtPericenter, both orbit_Epoch and
    -- orbit_MeanAnomaly must be present, or the record is skipped.
    else if sec.orbit_TimeAtPericenter.getD bigNeg ≤ bigNeg ∧
        (sec.orbit_Epoch.getD bigNeg ≤ bigNeg ∨
         sec.orbit_MeanAnomaly.getD bigNeg ≤ bigNeg) then
      .ok st
    else
      .ok (mkBody st sec parent true)
  else if sec.coord_func ∈ specialFuncNames then
    .ok (mkBody st sec parent false)
  else
    -- posfunc==Q_NULLPTR: "ERROR ... can't find posfunc" followed by exit(-1).
    .error ()

/-- Stage 3 of `loadPlanets(filePath)` for one ordered section: resolve the
declared parent against the already-constructed bodies (first name match); an
unresolved parent skips the record with a warning (`continue`). -/
def processSection (st : LoadState) (sec : IniSection) : Except Unit LoadState :=
  let strParent := strParentOf sec
  if strParent = "none" then processResolved st sec none
  else
    match st.systemPlanets.find? (fun p => p.englishName = strParent) with
    | none => .ok st
    | some par => processResolved st sec (some par)

/-- Iterate stage 3 over the ordered section names, fetching each section's
data by its name from the file. -/
def stage3 (sections : List IniSection) (ordered : List String) (st : LoadState) :
    Except Unit LoadState :=
  match ordered with
  | [] => .ok st
  | s :: rest =>
    match sections.find? (fun sec => sec.secname = s) with
    | none => stage3 sections rest st
    | some sec => (processSection st sec).bind (stage3 sections rest)

/-- Result of `loadPlanets(filePath)` (and of the two-file driver):
`diverge` marks a non-terminating stage-2 depth walk, `fatal` the
`exit(-1)` on an unknown `coord_func`, and `done b st` a normal return of
`b` with module state `st`. -/
inductive LoadResult where
  | diverge : LoadResult
  | fatal : LoadResult
  | done : Bool → LoadState → LoadResult
  deriving DecidableEq

/-- The `loadPlanets(const QString& filePath)` overload.  `none` for the file
models a `QSettings` parse error (`pd.status() != QSettings::NoError`), which
returns `false` before touching the state.  After stage 3 the function
returns `false` iff `systemPlanets` is empty. -/
def loadPlanetsFile (st : LoadState) (file : Option (List IniSection)) : LoadResult :=
  match file with
  | none => .done false st
  | some sections =>
    match orderedSections sections with
    | none => .diverge
    | some ordered =>
      match stage3 sections ordered st with
      | .error _ => .fatal
      | .ok st' => .done (¬ st'.systemPlanets.isEmpty) st'

/-- Outcome of the two-file `loadPlanets()` driver. -/
inductive DriverResult where
  | diverge : DriverResult
  | fatal : DriverResult
  | state : LoadState → DriverResult
  deriving DecidableEq

/-- The two-file `loadPlanets()` driver: clear `minorBodies`, load the major
catalogue (returning early on failure), then load the minor catalogue.  When
the minor load fails, the code clears the satellite lists of the minor bodies
(`p->pType >= Planet::isAsteroid`) and then calls `systemPlanets.clear()`,
which empties the whole body list; `orbits` and `minorBodies` are left alone
(the `TODO: what about the orbits list?` comment).  The texture loading and
`shadowPlanetCount` recomputation at the end touch no catalogue state. -/
def loadPlanets (major minor : Option (List IniSection)) : DriverResult :=
  match loadPlanetsFile emptyLoadState major with
  | .diverge => .diverge
  | .fatal => .fatal
  | .done false st => .state st
  | .done true st1 =>
    match loadPlanetsFile st1 minor with
    | .diverge => .diverge
    | .fatal => .fatal
    | .done true st2 => .state st2
    | .done false st2 => .state { st2 with systemPlanets := [] }

/-- The query `SolarSystem::searchByEnglishName`: first planet whose english
name matches. -/
def searchByEnglishName (st : LoadState) (planetEnglishName : String) : Option Planet :=
  st.systemPlanets.find? (fun p => p.englishName = planetEnglishName)

/-- The operation `SolarSystem::removePlanet`.  An unknown name returns
`false` without touching anything.  For a found body, a major body
(`pType < Planet::isAsteroid`) only triggers a warning and a debug-build
`Q_ASSERT(0)` ("This is likely not what you want, but will be accepted");
the removal then proceeds for bodies of every category: the orbit object is
removed from `orbits` (`removeOne`, first occurrence) and the body from
`systemPlanets`. -/
def removePlanet (st : LoadState) (name : String) : Bool × LoadState :=
  match searchByEnglishName st name with
  | none => (false, st)
  | some candidate =>
    let st1 :=
      match candidate.orbitPtr with
      | some orbPtr => { st with orbits := st.orbits.erase orbPtr }
      | none => st
    (true, { st1 with systemPlanets := st1.systemPlanets.erase candidate })

/-- The listing `SolarSystem::listAllObjects` for `inEnglish = true` (the
localized branch differs only in using translated names, which are outside
this embedding's scope). -/
def listAllObjects (st : LoadState) : List String :=
  st.systemPlanets.map (·.englishName)

/-- The listing `SolarSystem::listAllObjectsByType` for `inEnglish = true`:
names of the bodies whose planet-type string equals `objType`. -/
def listAllObjectsByType (st : LoadState) (objType : String) : List String :=
  (st.systemPlanets.filter (fun p => pTypeToString p.pType = objType)).map (·.englishName)

/-- The query `SolarSystem::getObjectsList`: for `"all"` (case-insensitive),
all objects with one occurrence each of `"Sun"`, `"Solar System Observer"`
and `"Earth Observer"` removed (`QStringList::removeOne`); otherwise the
by-type listing. -/
def getObjectsList (st : LoadState) (objType : String) : List String :=
  if objType.toLower = "all" then
    (((listAllObjects st).erase "Sun").erase "Solar System Observer").erase
      "Earth Observer"
  else
    listAllObjectsByType st objType

/-!
Part 2: the position engine (`SolarSystem::computePositions`) and the eclipse
calculator (`SolarSystem::getEclipseFactor`), embedded over the reals.

* A body's `Planet::eclipticPos` is its parent-relative position; the
  heliocentric position sums the parent chain (`Planet.cpp` is not in the
  sources; modelled from the spec: "heliocentric for Sun-relative variants;
  parent-relative for satellite variants", positions "composed through the
  parent chain").
* `Planet::computePosition(jde)` evaluates the body's position function at
  the given date and stores it; `computePositionWithoutOrbits` stores the
  same position, differing only in the orbit-plot bookkeeping, which is not
  part of the state here.
* Bodies are indexed by their position in `systemPlanets`; a parent is an
  index of an earlier entry, as guaranteed by the `CatalogueOrder`
  construction.  The recursions over the parent chain carry a fuel argument;
  for well-formed systems (`WFSys`) the chosen fuel is always sufficient.
-/

/-- Three-component real vector standing for `Vec3d`. -/
abbrev Vec3 := ℝ × ℝ × ℝ

/-- Euclidean length, `Vec3d::length()`. -/
noncomputable def vlen (v : Vec3) : ℝ := Real.sqrt (v.1 ^ 2 + v.2.1 ^ 2 + v.2.2 ^ 2)

/-- Componentwise division of a `Vec3d` by a scalar. -/
noncomputable def vdiv (v : Vec3) (s : ℝ) : Vec3 := (v.1 / s, v.2.1 / s, v.2.2 / s)

/-- Modelled from the spec: the astronomical-unit constant in kilometres
("speed of light and AU-to-km conversion are fixed physical constants";
`StelUtils.hpp` is not in the sources). -/
noncomputable def AU : ℝ := 149597870.691

/-- Modelled from the spec: the speed of light in km/s. -/
noncomputable def SPEED_OF_LIGHT : ℝ := 299792.458

/-- One body as the position engine sees it: its position function
(`posFuncType`, evaluating the orbit model at a date, parent-relative), its
stored parent-relative position `eclipticPos`, and the index of its parent
in `systemPlanets` (`none` for the root). -/
structure EPlanet where
  posfunc : ℝ → Vec3
  ecl : Vec3
  parent : Option ℕ

/-- The state update `Planet::computePosition(t)` of body `i`: store
`posfunc t` as its parent-relative position. -/
def computePosition : List EPlanet → ℕ → ℝ → List EPlanet
  | [], _, _ => []
  | p :: rest, 0, t => { p with ecl := p.posfunc t } :: rest
  | p :: rest, n + 1, t => p :: computePosition rest n t

/-- Pass 1 of `computePositions`: every body's position at the requested
date (`computePositionWithoutOrbits(dateJDE)` for each body in order; each
update touches only the body's own stored position). -/
def pass1 (sys : List EPlanet) (T : ℝ) : List EPlanet :=
  sys.map fun p => { p with ecl := p.posfunc T }

/-- Heliocentric ecliptic position of body `i` with explicit fuel:
`Planet::getHeliocentricEclipticPos` sums the stored parent-relative
positions along the parent chain. -/
def helioAux (sys : List EPlanet) : ℕ → ℕ → Vec3
  | 0, _ => 0
  | fuel + 1, i =>
    match sys.get? i with
    | none => 0
    | some p =>
      p.ecl + (match p.parent with | none => 0 | some j => helioAux sys fuel j)

/-- Heliocentric ecliptic position of body `i`; for a well-formed system the
parent chain from `i < sys.length` strictly descends, so `sys.length` fuel
suffices. -/
def helio (sys : List EPlanet) (i : ℕ) : Vec3 := helioAux sys sys.length i

/-- Well-formedness of a body system: every parent reference points to an
earlier entry (the `CatalogueOrder` invariant). -/
def WFSys (sys : List EPlanet) : Prop :=
  ∀ i p j, sys.get? i = some p → p.parent = some j → j < i

/-- Output state of `computePositions`: the updated body list and the stored
light-time sun-position offset. -/
structure EState where
  systemPlanets : List EPlanet
  lightTimeSunPosition : Vec3

/-- The engine `SolarSystem::computePositions(dateJDE, observerPlanet)`.
With light travel time on: pass 1 computes every body at `dateJDE`; the
solar-aberration hack re-evaluates the observer at
`dateJDE - obsDist * AU/(c*86400)`, stores the delta of the two observer
positions as `lightTimeSunPosition` and restores the observer at `dateJDE`;
pass 3 then walks `systemPlanets` in order, recomputing each body at
`dateJDE` minus the light-speed delay read from the current state.  With the
flag off, every body is computed directly at `dateJDE` and the offset is
zeroed.  The trailing `computeTransMatrices` call updates only the transform
matrices, which are not part of this state. -/
noncomputable def computePositions (flagLightTravelTime : Bool) (dateJDE : ℝ)
    (observer : ℕ) (sys : List EPlanet) : EState :=
  if flagLightTravelTime then
    let sys1 := pass1 sys dateJDE
    let obsPosJDE := helio sys1 observer
    let obsDist := vlen obsPosJDE
    let sys2 := computePosition sys1 observer
      (dateJDE - obsDist * (AU / (SPEED_OF_LIGHT * 86400)))
    let obsPosJDEbefore := helio sys2 observer
    let ltsp := obsPosJDE - obsPosJDEbefore
    let sys3 := computePosition sys2 observer dateJDE
    let sys4 := (List.range sys3.length).foldl (fun s i =>
      computePosition s i
        (dateJDE - vlen (helio s i - obsPosJDE) * (AU / (SPEED_OF_LIGHT * 86400)))) sys3
    ⟨sys4, ltsp⟩
  else
    ⟨pass1 sys dateJDE, 0⟩

/-- Raw orbit-model composition through the parent chain at a single date
(the specification's reading of instantaneous mode). -/
def rawChainAux (sys : List EPlanet) (T : ℝ) : ℕ → ℕ → Vec3
  | 0, _ => 0
  | fuel + 1, i =>
    match sys.get? i with
    | none => 0
    | some p =>
      p.posfunc T + (match p.parent with | none => 0 | some j => rawChainAux sys T fuel j)

/-- Raw orbit-model composition through the parent chain at date `T`. -/
def rawChain (sys : List EPlanet) (T : ℝ) (i : ℕ) : Vec3 :=
  rawChainAux sys T sys.length i

/-- Heliocentric position of the optional body index `o` in the state pass 3
leaves behind: each body's final position is its position function at
`T` minus the light-speed delay computed from its own pass-1 parent-relative
position composed with the already-recomputed positions of its ancestors,
measured against the observer's pass-1 heliocentric position `obsPos`.
`sys1` is the pass-1 state. -/
noncomputable def helioFinalAux (sys1 : List EPlanet) (obsPos : Vec3) (T : ℝ) :
    ℕ → Option ℕ → Vec3
  | _, none => 0
  | 0, some _ => 0
  | fuel + 1, some i =>
    match sys1.get? i with
    | none => 0
    | some p =>
      p.posfunc (T - vlen ((p.ecl + helioFinalAux sys1 obsPos T fuel p.parent) - obsPos) *
          (AU / (SPEED_OF_LIGHT * 86400)))
        + helioFinalAux sys1 obsPos T fuel p.parent

/-- Final parent-relative position of body `i` after pass 3 (see
`helioFinalAux`). -/
noncomputable def eclFinal (sys1 : List EPlanet) (obsPos : Vec3) (T : ℝ) (i : ℕ) : Vec3 :=
  match sys1.get? i with
  | none => 0
  | some p =>
    p.posfunc (T - vlen ((p.ecl + helioFinalAux sys1 obsPos T sys1.length p.parent) - obsPos) *
        (AU / (SPEED_OF_LIGHT * 86400)))

/-- One occluding body as `getEclipseFactor` sees it: `modelPos` is the
translation column of `Planet::computeModelMatrix` (modelled from the spec:
the body's light-time-corrected heliocentric position), `radius` the body
radius in AU. -/
structure OccBody where
  modelPos : Vec3
  radius : ℝ
  englishName : String

/-- Input state of `SolarSystem::getEclipseFactor`: the body list, the
identities (list indices, standing for the shared-pointer comparisons
`planet == sun` and `planet == core->getCurrentPlanet()`), the sun radius,
the stored `lightTimeSunPosition` and the observer's heliocentric
position. -/
structure EclipseInput where
  systemPlanets : List OccBody
  sunIdx : ℕ
  currentIdx : ℕ
  sunRadius : ℝ
  lightTimeSunPosition : Vec3
  observerPos : Vec3

/-- Per-occluder illumination contribution of `getEclipseFactor`, with the
four regimes on the normalized separation `d` against source radius `R` and
occluder radius `r`.  (The C++ also contains a dead reassignment of `v1` for
the body named "Moon" after `d` has been computed; `v1` is not read again,
so it has no effect and is omitted.) -/
noncomputable def contribution (RS : ℝ) (Lp P3 C : Vec3) (radius : ℝ) : ℝ :=
  let v1 := Lp - P3
  let v2 := C - P3
  let L := vlen v1
  let l := vlen v2
  let v1n := vdiv v1 L
  let v2n := vdiv v2 l
  let R := RS / L
  let r := radius / l
  let d := vlen (v1n - v2n)
  if d ≥ R + r then 1
  else if d ≤ r - R then 0
  else if d ≤ R - r then 1 - r * r / (R * R)
  else
    let x := (R * R + d * d - r * r) / (2 * d)
    let alpha := Real.arccos (x / R)
    let beta := Real.arccos ((d - x) / r)
    let AR := R * R * (alpha - 0.5 * Real.sin (2 * alpha))
    let Ar := r * r * (beta - 0.5 * Real.sin (2 * beta))
    let AS := R * R * 2 * Real.arcsin 1
    1 - (AR + Ar) / AS

/-- The occluder scan of `getEclipseFactor`: every body other than the sun
and the observer's current body lowers the running minimum (which starts at
`1.0`) to its illumination contribution when that is smaller. -/
noncomputable def eclipseLoop (inp : EclipseInput) :
    List (ℕ × OccBody) → ℝ → ℝ
  | [], final => final
  | (i, planet) :: rest, final =>
    if i = inp.sunIdx ∨ i = inp.currentIdx then eclipseLoop inp rest final
    else
      let illumination := contribution inp.sunRadius inp.lightTimeSunPosition
        inp.observerPos planet.modelPos planet.radius
      eclipseLoop inp rest (if illumination < final then illumination else final)

/-- The operation `SolarSystem::getEclipseFactor`. -/
noncomputable def getEclipseFactor (inp : EclipseInput) : ℝ :=
  eclipseLoop inp inp.systemPlanets.enum 1

/-- The occluding bodies: every catalogued body other than the light source
and the observer's own body. -/
def occluders (inp : EclipseInput) : List OccBody :=
  (inp.systemPlanets.enum.filter
    (fun e => ¬(e.1 = inp.sunIdx ∨ e.1 = inp.currentIdx))).map Prod.snd

/-!
Theorems.  Concrete catalogue states and ini sections used as inputs for the
witnesses and counterexamples come first.
-/

/-- Area of the circular segment of the disk of radius `√(h²+X²)` cut off by
the chord at signed distance `X` from the centre (`h` is the half-chord);
the building block of the two-circle lens-overlap bound behind
`getEclipseFactor`. -/
noncomputable def Fseg (h X : ℝ) : ℝ :=
  (h ^ 2 + X ^ 2) * Real.arccos (X / Real.sqrt (h ^ 2 + X ^ 2)) - h * X

/-! #### A concrete three-body system separating the two delay readings -/

/-- A motionless central body (root of the parent tree). -/
noncomputable def sunE : EPlanet := ⟨fun _ => 0, 0, none⟩

/-- A body whose orbit model jumps between `(3,0,0)` (strictly before date
`0`) and `(1,0,0)` (from date `0` on); child of body `0`. -/
noncomputable def earthE : EPlanet :=
  ⟨fun t => if t < 0 then ((3 : ℝ), 0, 0) else ((1 : ℝ), 0, 0), 0, some 0⟩

/-- A body moving as `(t,0,0)` relative to its parent, body `1`. -/
noncomputable def moonE : EPlanet := ⟨fun t => ((t : ℝ), 0, 0), 0, some 1⟩

/-- The concrete three-body system. -/
noncomputable def c2sys : List EPlanet := [sunE, earthE, moonE]

/-- The pass-1 state of `c2sys` at date `0`, written out. -/
noncomputable def c2sys1 : List EPlanet :=
  [⟨sunE.posfunc, 0, none⟩, ⟨earthE.posfunc, ((1 : ℝ), 0, 0), some 0⟩,
   ⟨moonE.posfunc, 0, some 1⟩]

/-- The light-time factor: days of light travel per AU of distance. -/
noncomputable def kLT : ℝ := AU / (SPEED_OF_LIGHT * 86400)

/-- A concrete eclipse input: one sun (index 0, also the observer's body)
and one occluding rock. -/
noncomputable def c3inp : EclipseInput :=
  ⟨[⟨(0, 0, 0), 1, "Sun"⟩, ⟨(1, 0, 0), 1, "Rock"⟩], 0, 0, 1, (2, 0, 0), (1, 1, 0)⟩


/-- Decidable equality of loader outcomes. -/
instance instDecEqExceptLoad : DecidableEq (Except Unit LoadState) := fun a b =>
  match a, b with
  | .ok s, .ok t =>
    if h : s = t then isTrue (by rw [h]) else isFalse (by simpa using h)
  | .error _, .error _ => isTrue (by rfl)
  | .ok _, .error _ => isFalse (by simp)
  | .error _, .ok _ => isFalse (by simp)

/-- Empty ini section record; concrete sections override the relevant
fields. -/
def baseSec : IniSection :=
  ⟨"", "", none, "", "", none, none, none, none, none, none, none, none,
   none, none, none, none, none, none, 0⟩

/-- Sun section of a small major catalogue. -/
def sunSec : IniSection :=
  { baseSec with
    secname := "sun"
    name := "Sun"
    parent := some "none"
    coord_func := "sun_special"
    typeStr := "star" }

/-- Earth section of a small major catalogue (parent defaults to "Sun"). -/
def earthSec : IniSection :=
  { baseSec with
    secname := "earth"
    name := "Earth"
    coord_func := "earth_special"
    typeStr := "planet" }

/-- Small major catalogue: Sun and Earth. -/
def majorCexSections : List IniSection := [sunSec, earthSec]

/-- A record declaring a nonexistent parent and an unrecognized orbit
function. -/
def phobosBogusSec : IniSection :=
  { baseSec with
    secname := "phobos2"
    name := "Phobos2"
    parent := some "Mars2"
    coord_func := "bogus_func"
    typeStr := "moon" }

/-- A root record (parent "none") with an unrecognized orbit function. -/
def bogusRootSec : IniSection :=
  { baseSec with
    secname := "x"
    name := "X"
    parent := some "none"
    coord_func := "bogus_func"
    typeStr := "planet" }

/-- Catalogue state with Sun, Earth and the major body Moon (owning orbit 0). -/
def c5State : LoadState :=
  ⟨[⟨"Sun", "star", .isStar, none, none, []⟩,
    ⟨"Earth", "planet", .isPlanet, none, some "Sun", ["Moon"]⟩,
    ⟨"Moon", "moon", .isMoon, some 0, some "Earth", []⟩], [0], 1, []⟩

/-- The minor body of `c5WitnessState`. -/
def ceresPlanet : Planet := ⟨"Ceres", "dwarf planet", .isDwarfPlanet, some 7, some "Sun", []⟩

/-- Catalogue state with the Sun and the minor body Ceres (owning orbit 7). -/
def c5WitnessState : LoadState :=
  ⟨[⟨"Sun", "star", .isStar, none, none, []⟩, ceresPlanet], [7], 8, ["Ceres"]⟩

/-- Catalogue state holding only the Sun, for the C7 witness. -/
def c7State : LoadState := ⟨[⟨"Sun", "star", .isStar, none, none, []⟩], [], 0, []⟩

/-- A record declaring the nonexistent parent "Mars2" with a recognized
orbit function. -/
def phobos2Sec : IniSection :=
  { baseSec with
    secname := "phobos2"
    name := "Phobos2"
    parent := some "Mars2"
    coord_func := "ell_orbit"
    typeStr := "moon" }

/-- Section "aaa" (body A, parent Sun by default). -/
def c1aSec : IniSection :=
  { baseSec with
    secname := "aaa"
    name := "A"
    coord_func := "sun_special"
    typeStr := "planet" }

/-- Section "bbb" (body B, parent Sun by default), after "aaa" in the file. -/
def c1bSec : IniSection :=
  { baseSec with
    secname := "bbb"
    name := "B"
    coord_func := "sun_special"
    typeStr := "planet" }

/-- Catalogue with two bodies of equal dependency depth. -/
def c1Sections : List IniSection := [sunSec, c1aSec, c1bSec]

/-- Claim C9: `removePlanet` on a name that is not the english name of any
catalogued body returns `false` and leaves the whole catalogue state (body
list, orbit list, links) exactly unchanged. -/
theorem removePlanet_unknown (st : LoadState) (name : String)
    (h : ∀ p ∈ st.systemPlanets, p.englishName ≠ name) :
    removePlanet st name = (false, st) := by
  have hf : st.systemPlanets.find? (fun p => p.englishName = name) = none :=
    List.find?_eq_none.mpr fun p hp => by simpa using h p hp
  simp [removePlanet, searchByEnglishName, hf]

/-- Witness for `removePlanet_unknown` at a concrete catalogue and name. -/
theorem removePlanet_unknown_witness :
    (∀ p ∈ c5State.systemPlanets, p.englishName ≠ "Vulcan") ∧
      removePlanet c5State "Vulcan" = (false, c5State) :=
  ⟨by decide, removePlanet_unknown c5State "Vulcan" (by decide)⟩

/-- Counterexample to claim C5 as stated: "Moon" names a major body
(`pType < Planet::isAsteroid`), yet the removal request succeeds and the
body is removed and dropped from the identifier listings (Earth and Sun do
remain intact). -/
theorem removePlanet_moon_cex :
    ((searchByEnglishName c5State "Moon").map (fun p => p.pType.rank)).getD 99 <
      PType.isAsteroid.rank ∧
    (removePlanet c5State "Moon").1 = true ∧
    "Moon" ∉ listAllObjects (removePlanet c5State "Moon").2 ∧
    "Earth" ∈ listAllObjects (removePlanet c5State "Moon").2 ∧
    "Sun" ∈ listAllObjects (removePlanet c5State "Moon").2 := by
  decide

/-- Claim C5 as amended: a removal request for any catalogued body — minor
or major, the latter after a warning and a debug-only assertion — succeeds,
removes exactly that body and its orbit object, drops its name from the
identifier listings, and leaves every other body intact. -/
theorem removePlanet_found (st : LoadState) (name : String) (p : Planet)
    (hnd : (st.systemPlanets.map (·.englishName)).Nodup)
    (hf : searchByEnglishName st name = some p) :
    (removePlanet st name).1 = true ∧
    (removePlanet st name).2.systemPlanets = st.systemPlanets.erase p ∧
    (removePlanet st name).2.orbits =
      (match p.orbitPtr with
       | some o => st.orbits.erase o
       | none => st.orbits) ∧
    (removePlanet st name).2.minorBodies = st.minorBodies ∧
    name ∉ listAllObjects (removePlanet st name).2 ∧
    ∀ q ∈ st.systemPlanets, q ≠ p → q ∈ (removePlanet st name).2.systemPlanets := by
  have hmem : p ∈ st.systemPlanets := List.mem_of_find?_eq_some hf
  have hpn : p.englishName = name := by simpa using List.find?_some hf
  have hrem : removePlanet st name =
      (true, ⟨st.systemPlanets.erase p,
        match p.orbitPtr with
        | some o => st.orbits.erase o
        | none => st.orbits, st.nextOrbit, st.minorBodies⟩) := by
    rcases horb : p.orbitPtr with _ | o <;>
      simp only [removePlanet, searchByEnglishName] at hf ⊢ <;>
      rw [hf] <;> simp [horb]
  rw [hrem]
  refine ⟨rfl, rfl, rfl, rfl, ?_, ?_⟩
  · rw [listAllObjects]
    intro hin
    obtain ⟨q, hq, hqn⟩ := List.mem_map.mp hin
    have hql : q ∈ st.systemPlanets := List.mem_of_mem_erase hq
    have hqp : q = p := List.inj_on_of_nodup_map hnd hql hmem (by rw [hqn, hpn])
    subst hqp
    exact (List.Nodup.of_map _ hnd).not_mem_erase hq
  · intro q hq hqp
    exact (List.mem_erase_of_ne hqp).2 hq

/-- Witness for `removePlanet_found`: removing the minor body "Ceres". -/
theorem removePlanet_found_witness :
    (c5WitnessState.systemPlanets.map (·.englishName)).Nodup ∧
    searchByEnglishName c5WitnessState "Ceres" = some ceresPlanet ∧
    ((removePlanet c5WitnessState "Ceres").1 = true ∧
     (removePlanet c5WitnessState "Ceres").2.systemPlanets =
       c5WitnessState.systemPlanets.erase ceresPlanet ∧
     (removePlanet c5WitnessState "Ceres").2.orbits =
       (match ceresPlanet.orbitPtr with
        | some o => c5WitnessState.orbits.erase o
        | none => c5WitnessState.orbits) ∧
     (removePlanet c5WitnessState "Ceres").2.minorBodies = c5WitnessState.minorBodies ∧
     "Ceres" ∉ listAllObjects (removePlanet c5WitnessState "Ceres").2 ∧
     ∀ q ∈ c5WitnessState.systemPlanets, q ≠ ceresPlanet →
       q ∈ (removePlanet c5WitnessState "Ceres").2.systemPlanets) :=
  ⟨by decide, by decide,
    removePlanet_found c5WitnessState "Ceres" ceresPlanet (by decide) (by decide)⟩

/-- Claim C10: `getObjectsList` with a type string that lowercases to "all"
returns the english names of all catalogued bodies with "Sun", "Solar System
Observer" and "Earth Observer" removed (in particular "Sun" never appears),
and with any other type string returns exactly the names of the bodies whose
planet-type string equals the argument.  The no-duplicate-names hypothesis
makes `removeOne` remove every occurrence. -/
theorem getObjectsList_spec (st : LoadState)
    (hnd : (listAllObjects st).Nodup) :
    (∀ t : String, t.toLower = "all" →
      getObjectsList st t = (listAllObjects st).filter
        (fun n => n != "Sun" && n != "Solar System Observer" && n != "Earth Observer") ∧
      "Sun" ∉ getObjectsList st t) ∧
    (∀ t : String, t.toLower ≠ "all" →
      getObjectsList st t =
        (st.systemPlanets.filter (fun p => pTypeToString p.pType = t)).map (·.englishName)) := by
  constructor
  · intro t ht
    have h1 : (listAllObjects st).erase "Sun" =
        (listAllObjects st).filter (· != "Sun") := hnd.erase_eq_filter _
    have hnd1 : ((listAllObjects st).filter (· != "Sun")).Nodup := hnd.filter _
    have h2 : ((listAllObjects st).filter (· != "Sun")).erase "Solar System Observer" =
        ((listAllObjects st).filter (· != "Sun")).filter (· != "Solar System Observer") :=
      hnd1.erase_eq_filter _
    have hnd2 : (((listAllObjects st).filter (· != "Sun")).filter
        (· != "Solar System Observer")).Nodup := hnd1.filter _
    have h3 : (((listAllObjects st).filter (· != "Sun")).filter
          (· != "Solar System Observer")).erase "Earth Observer" =
        (((listAllObjects st).filter (· != "Sun")).filter
          (· != "Solar System Observer")).filter (· != "Earth Observer") :=
      hnd2.erase_eq_filter _
    have hmain : getObjectsList st t = (listAllObjects st).filter
        (fun n => n != "Sun" && n != "Solar System Observer" && n != "Earth Observer") := by
      rw [getObjectsList, if_pos ht, h1, h2, h3, List.filter_filter, List.filter_filter]
      refine List.filter_congr fun n _ => ?_
      cases hb1 : (n == "Sun") <;> cases hb2 : (n == "Solar System Observer") <;>
        cases hb3 : (n == "Earth Observer") <;> simp [bne, hb1, hb2, hb3]
    refine ⟨hmain, ?_⟩
    rw [hmain]
    intro hin
    have hpred := (List.mem_filter.mp hin).2
    simp at hpred
  · intro t ht
    rw [getObjectsList, if_neg ht, listAllObjectsByType]

/-- Witness for `getObjectsList_spec` at a concrete catalogue. -/
theorem getObjectsList_spec_witness :
    (listAllObjects c5State).Nodup ∧
    ((∀ t : String, t.toLower = "all" →
      getObjectsList c5State t = (listAllObjects c5State).filter
        (fun n => n != "Sun" && n != "Solar System Observer" && n != "Earth Observer") ∧
      "Sun" ∉ getObjectsList c5State t) ∧
    (∀ t : String, t.toLower ≠ "all" →
      getObjectsList c5State t =
        (c5State.systemPlanets.filter
          (fun p => pTypeToString p.pType = t)).map (·.englishName))) :=
  ⟨by decide, getObjectsList_spec c5State (by decide)⟩

/-- Fatality of the `coord_func` dispatch once the parent is resolved: the
`exit(-1)` branch is reached exactly for identifiers outside the recognized
registry (the element-validation `continue`s of `ell_orbit`/`comet_orbit`
skip the record without being fatal). -/
theorem processResolved_fatal_iff (st : LoadState) (sec : IniSection)
    (parent : Option Planet) :
    processResolved st sec parent = .error () ↔
      sec.coord_func ∉ recognizedCoordFuncs := by
  unfold processResolved
  split_ifs with h1 h2 h3 h4 h5 h6 <;>
    simp_all [recognizedCoordFuncs]

/-- Claim C8 as amended: for a record whose declared parent resolves (it is
"none" or a constructed body carries that name), processing reaches the
fatal `exit(-1)` branch iff the `coord_func` identifier is not one of the
recognized orbit-function identifiers.  (A record whose parent does not
resolve is skipped before the dispatch; see
`coordFunc_unrecognized_skipped_cex`.) -/
theorem processSection_fatal_iff (st : LoadState) (sec : IniSection)
    (hres : strParentOf sec = "none" ∨
      (st.systemPlanets.find? (fun p => p.englishName = strParentOf sec)).isSome) :
    processSection st sec = .error () ↔
      sec.coord_func ∉ recognizedCoordFuncs := by
  by_cases hn : strParentOf sec = "none"
  · rw [processSection]
    simp only [hn, if_pos rfl]
    exact processResolved_fatal_iff st sec none
  · obtain ⟨par, hpar⟩ := Option.isSome_iff_exists.mp (hres.resolve_left hn)
    rw [processSection]
    simp only [if_neg hn, hpar]
    exact processResolved_fatal_iff st sec (some par)

/-- Witness for `processSection_fatal_iff`: a root record with an
unrecognized `coord_func` is fatal. -/
theorem processSection_fatal_iff_witness :
    (strParentOf bogusRootSec = "none" ∨
      (emptyLoadState.systemPlanets.find?
        (fun p => p.englishName = strParentOf bogusRootSec)).isSome) ∧
    (processSection emptyLoadState bogusRootSec = .error () ↔
      bogusRootSec.coord_func ∉ recognizedCoordFuncs) :=
  ⟨Or.inl (by decide),
    processSection_fatal_iff emptyLoadState bogusRootSec (Or.inl (by decide))⟩

/-- Counterexample to claim C8 as stated: a record with an unrecognized
`coord_func` but an unresolvable parent is skipped at the parent-resolution
step — processing returns normally with the state unchanged and never
reaches the fatal branch. -/
theorem coordFunc_unrecognized_skipped_cex :
    strParentOf phobosBogusSec ≠ "none" ∧
    phobosBogusSec.coord_func ∉ recognizedCoordFuncs ∧
    processSection emptyLoadState phobosBogusSec = .ok emptyLoadState := by
  decide

/-- Claim C4, evaluated at the failing input: the primary (major) catalogue
loads successfully, with "Sun" and "Earth" catalogued and queryable; a
parse failure of the secondary (minor) catalogue then empties
`systemPlanets` entirely — the major bodies are wiped out too, contradicting
the claim that only the bodies introduced by the secondary source are rolled
back. -/
theorem loadPlanets_minor_failure_wipes_majors :
    (∃ st1, loadPlanetsFile emptyLoadState (some majorCexSections) = .done true st1 ∧
      "Earth" ∈ listAllObjects st1 ∧ "Sun" ∈ listAllObjects st1) ∧
    loadPlanets (some majorCexSections) none =
      .state { systemPlanets := [], orbits := [], nextOrbit := 0, minorBodies := [] } := by
  refine ⟨⟨⟨[⟨"Sun", "star", .isStar, none, none, ["Earth"]⟩,
    ⟨"Earth", "planet", .isPlanet, none, some "Sun", []⟩], [], 0, []⟩,
    by decide, by decide, by decide⟩, by decide⟩

/-- Linking a satellite under its parent does not change the name sequence of
the catalogue. -/
theorem appendSatellite_names (ps : List Planet) (a b : String) :
    (appendSatellite ps a b).map (·.englishName) = ps.map (·.englishName) := by
  induction ps with
  | nil => rfl
  | cons p rest ih => rw [appendSatellite]; split_ifs <;> simp [ih]

/-- Constructing a body appends exactly its (simplified) name to the
catalogue's name sequence. -/
theorem mkBody_names (st : LoadState) (sec : IniSection) (parent : Option Planet)
    (w : Bool) :
    (mkBody st sec parent w).systemPlanets.map (·.englishName) =
      st.systemPlanets.map (·.englishName) ++ [qSimplified sec.name] := by
  unfold mkBody
  cases parent <;> split_ifs <;> simp [appendSatellite_names, apply_ite]

/-- A non-fatal record processing either skips the record or constructs one
body from it. -/
theorem processResolved_cases (st : LoadState) (sec : IniSection)
    (parent : Option Planet) (st' : LoadState)
    (h : processResolved st sec parent = .ok st') :
    st' = st ∨ ∃ w, st' = mkBody st sec parent w := by
  unfold processResolved at h
  split_ifs at h <;>
    first
      | exact Or.inl (Except.ok.inj h).symm
      | exact Or.inr ⟨true, (Except.ok.inj h).symm⟩
      | exact Or.inr ⟨false, (Except.ok.inj h).symm⟩
      | cases h

/-- A non-fatal record processing leaves the state unchanged or constructs
one body. -/
theorem processSection_cases (st : LoadState) (sec : IniSection) (st' : LoadState)
    (h : processSection st sec = .ok st') :
    st' = st ∨ ∃ parent w, st' = mkBody st sec parent w := by
  rw [processSection] at h
  split_ifs at h with hn
  · rcases processResolved_cases _ _ _ _ h with h' | ⟨w, h'⟩
    · exact Or.inl h'
    · exact Or.inr ⟨none, w, h'⟩
  · rcases hf : st.systemPlanets.find? (fun p => p.englishName = strParentOf sec) with
      _ | par
    · rw [hf] at h
      exact Or.inl (Except.ok.inj h).symm
    · rw [hf] at h
      rcases processResolved_cases _ _ _ _ h with h' | ⟨w, h'⟩
      · exact Or.inl h'
      · exact Or.inr ⟨some par, w, h'⟩

/-- Every body present after a non-fatal record processing was already
present or carries the record's (simplified) name. -/
theorem processSection_mem_names (st : LoadState) (sec : IniSection)
    (st' : LoadState) (h : processSection st sec = .ok st') :
    ∀ p ∈ st'.systemPlanets,
      p.englishName ∈ st.systemPlanets.map (·.englishName) ∨
      p.englishName = qSimplified sec.name := by
  intro p hp
  rcases processSection_cases st sec st' h with h' | ⟨parent, w, h'⟩
  · subst h'
    exact Or.inl (List.mem_map_of_mem _ hp)
  · subst h'
    have : p.englishName ∈ (mkBody st sec parent w).systemPlanets.map (·.englishName) :=
      List.mem_map_of_mem _ hp
    rw [mkBody_names] at this
    rcases List.mem_append.mp this with hin | hin
    · exact Or.inl hin
    · exact Or.inr (by simpa using hin)

/-- Record processing never shrinks the catalogue. -/
theorem processSection_len (st : LoadState) (sec : IniSection) (st' : LoadState)
    (h : processSection st sec = .ok st') :
    st.systemPlanets.length ≤ st'.systemPlanets.length := by
  rcases processSection_cases st sec st' h with h' | ⟨parent, w, h'⟩
  · subst h'; exact le_rfl
  · subst h'
    have := congrArg List.length (mkBody_names st sec parent w)
    simp only [List.length_map, List.length_append, List.length_singleton] at this
    omega

/-- Claim C7, record-level part: a record whose declared parent name (other
than "none") matches no constructed body is skipped — `continue` with a
warning, the state unchanged. -/
theorem processSection_skip_unresolved (st : LoadState) (sec : IniSection)
    (hn : strParentOf sec ≠ "none")
    (hfind : ∀ p ∈ st.systemPlanets, p.englishName ≠ strParentOf sec) :
    processSection st sec = .ok st := by
  rw [processSection, if_neg hn,
    List.find?_eq_none.mpr fun p hp => by simpa using hfind p hp]

/-- Invariant carried over stage 3: if no record's simplified name is `P`,
every record named `N` declares the unresolvable parent `P`, and the state
contains no body named `P` or `N`, then the stage-3 sweep never constructs a
body named `P` or `N`. -/
theorem stage3_inv (sections : List IniSection) (P N : String)
    (hPn : P ≠ "none")
    (hsecP : ∀ s ∈ sections, qSimplified s.name ≠ P)
    (hsecN : ∀ s ∈ sections, qSimplified s.name = N → strParentOf s = P) :
    ∀ ordered st st',
      stage3 sections ordered st = .ok st' →
      (∀ p ∈ st.systemPlanets, p.englishName ≠ P ∧ p.englishName ≠ N) →
      (∀ p ∈ st'.systemPlanets, p.englishName ≠ P ∧ p.englishName ≠ N) := by
  intro ordered
  induction ordered with
  | nil =>
    intro st st' h hinv
    rw [stage3] at h
    rw [← Except.ok.inj h]
    exact hinv
  | cons s rest ih =>
    intro st st' h hinv
    rw [stage3] at h
    rcases hf : sections.find? (fun sec => sec.secname = s) with _ | secf
    · rw [hf] at h
      exact ih st st' h hinv
    · rw [hf] at h
      change (processSection st secf).bind (stage3 sections rest) = Except.ok st' at h
      have hsecf : secf ∈ sections := List.mem_of_find?_eq_some hf
      rcases hps : processSection st secf with _ | st1
      · rw [hps] at h; cases h
      · rw [hps] at h
        simp only [Except.bind] at h
        refine ih st1 st' h ?_
        by_cases hN : qSimplified secf.name = N
        · have hskip : processSection st secf = .ok st := by
            refine processSection_skip_unresolved st secf ?_ ?_
            · rw [hsecN secf hsecf hN]; exact hPn
            · intro p hp
              rw [hsecN secf hsecf hN]
              exact (hinv p hp).1
          rw [hskip] at hps
          rw [← Except.ok.inj hps]
          exact hinv
        · intro p hp
          rcases processSection_mem_names st secf st1 hps p hp with hin | hin
          · obtain ⟨q, hq, hqe⟩ := List.mem_map.mp hin
            rw [← hqe]
            exact hinv q hq
          · rw [hin]
            exact ⟨hsecP secf hsecf, hN⟩

/-- Stage 3 never loses catalogue entries. -/
theorem stage3_len (sections : List IniSection) :
    ∀ ordered st st',
      stage3 sections ordered st = .ok st' →
      st.systemPlanets.length ≤ st'.systemPlanets.length := by
  intro ordered
  induction ordered with
  | nil =>
    intro st st' h
    rw [stage3] at h
    rw [← Except.ok.inj h]
  | cons s rest ih =>
    intro st st' h
    rw [stage3] at h
    rcases hf : sections.find? (fun sec => sec.secname = s) with _ | secf
    · rw [hf] at h
      exact ih st st' h
    · rw [hf] at h
      change (processSection st secf).bind (stage3 sections rest) = Except.ok st' at h
      rcases hps : processSection st secf with _ | st1
      · rw [hps] at h; cases h
      · rw [hps] at h
        simp only [Except.bind] at h
        exact le_trans (processSection_len st secf st1 hps) (ih st1 st' h)

/-- Claim C7: a record whose declared parent name resolves to no constructed
body (here: the parent is no section's body name and no preexisting body's
name) is skipped with a warning and the loader continues — the skipped
body's name appears in no identifier listing afterwards, and the load of the
remaining catalogue succeeds (returns `true` whenever the starting catalogue
was nonempty).  The final conjunct is the record-level skip itself. -/
theorem loadFile_skips_unresolved_parent (st0 : LoadState)
    (sections : List IniSection) (sec : IniSection) (b : Bool) (st' : LoadState)
    (hmem : sec ∈ sections)
    (hpne : strParentOf sec ≠ "none")
    (h1 : ∀ s ∈ sections, qSimplified s.name ≠ strParentOf sec)
    (h2 : ∀ p ∈ st0.systemPlanets, p.englishName ≠ strParentOf sec)
    (h3 : ∀ s ∈ sections, qSimplified s.name = qSimplified sec.name →
      strParentOf s = strParentOf sec)
    (h4 : ∀ p ∈ st0.systemPlanets, p.englishName ≠ qSimplified sec.name)
    (hload : loadPlanetsFile st0 (some sections) = .done b st') :
    qSimplified sec.name ∉ listAllObjects st' ∧
    (st0.systemPlanets ≠ [] → b = true) ∧
    (∀ st : LoadState, (∀ p ∈ st.systemPlanets, p.englishName ≠ strParentOf sec) →
      processSection st sec = .ok st) := by
  rcases ho : orderedSections sections with _ | ordered
  · rw [loadPlanetsFile, ho] at hload; cases hload
  · rw [loadPlanetsFile, ho] at hload
    change (match stage3 sections ordered st0 with
      | Except.error _ => LoadResult.fatal
      | Except.ok stt => LoadResult.done (¬ stt.systemPlanets.isEmpty) stt) =
        LoadResult.done b st' at hload
    rcases hs : stage3 sections ordered st0 with _ | st1
    · rw [hs] at hload; cases hload
    · rw [hs] at hload
      change LoadResult.done (¬ st1.systemPlanets.isEmpty) st1 =
        LoadResult.done b st' at hload
      injection hload with hbe hste
      subst hste
      subst hbe
      have hinv := stage3_inv sections (strParentOf sec) (qSimplified sec.name)
        hpne h1 h3 ordered st0 st1 hs
        (fun p hp => ⟨h2 p hp, h4 p hp⟩)
      refine ⟨?_, ?_, ?_⟩
      · intro hin
        obtain ⟨q, hq, hqe⟩ := List.mem_map.mp hin
        exact (hinv q hq).2 hqe
      · intro hne
        have hlen := stage3_len sections ordered st0 st1 hs
        have hne1 : st1.systemPlanets ≠ [] := by
          intro hnil
          rw [hnil] at hlen
          simp at hlen
          exact hne hlen
        simpa [List.isEmpty_iff] using hne1
      · intro st hst
        exact processSection_skip_unresolved st sec hpne hst

/-- Witness for `loadFile_skips_unresolved_parent`: loading a catalogue whose
only record is "Phobos2" with parent "Mars2" on top of a Sun-only state. -/
theorem loadFile_skips_unresolved_parent_witness :
    phobos2Sec ∈ [phobos2Sec] ∧
    strParentOf phobos2Sec ≠ "none" ∧
    (∀ s ∈ [phobos2Sec], qSimplified s.name ≠ strParentOf phobos2Sec) ∧
    (∀ p ∈ c7State.systemPlanets, p.englishName ≠ strParentOf phobos2Sec) ∧
    (∀ s ∈ [phobos2Sec], qSimplified s.name = qSimplified phobos2Sec.name →
      strParentOf s = strParentOf phobos2Sec) ∧
    (∀ p ∈ c7State.systemPlanets, p.englishName ≠ qSimplified phobos2Sec.name) ∧
    loadPlanetsFile c7State (some [phobos2Sec]) = .done true c7State ∧
    (qSimplified phobos2Sec.name ∉ listAllObjects c7State ∧
     (c7State.systemPlanets ≠ [] → true = true) ∧
     (∀ st : LoadState,
        (∀ p ∈ st.systemPlanets, p.englishName ≠ strParentOf phobos2Sec) →
        processSection st phobos2Sec = .ok st)) :=
  ⟨by decide, by decide, by decide, by decide, by decide, by decide, by decide,
    loadFile_skips_unresolved_parent c7State [phobos2Sec] phobos2Sec true c7State
      (by decide) (by decide) (by decide) (by decide) (by decide) (by decide)
      (by decide)⟩

/-- The Qt lower-bound insertion splits a key-sorted multimap at the first
entry whose key is at least the inserted key. -/
theorem qmmInsert_split (m : List (ℕ × String)) (k : ℕ) (v : String)
    (h : KSorted m) :
    ∃ l₁ l₂, m = l₁ ++ l₂ ∧ qmmInsert m k v = l₁ ++ (k, v) :: l₂ ∧
      (∀ e ∈ l₁, e.1 < k) ∧ (∀ e ∈ l₂, k ≤ e.1) := by
  induction m with
  | nil => exact ⟨[], [], rfl, rfl, by simp, by simp⟩
  | cons hd rest ih =>
    obtain ⟨hhd, hrest⟩ := List.pairwise_cons.mp h
    rcases hd with ⟨k', v'⟩
    by_cases hk : k ≤ k'
    · refine ⟨[], (k', v') :: rest, rfl, ?_, by simp, ?_⟩
      · simp only [qmmInsert, if_pos hk]
        rfl
      · intro e he
        rcases List.mem_cons.mp he with he | he
        · rw [he]; exact hk
        · exact le_trans hk (hhd e he)
    · obtain ⟨l₁, l₂, hm, hins, hl₁, hl₂⟩ := ih hrest
      refine ⟨(k', v') :: l₁, l₂, by rw [List.cons_append, ← hm], ?_, ?_, hl₂⟩
      · simp only [qmmInsert, if_neg hk]
        rw [hins, List.cons_append]
      · intro e he
        rcases List.mem_cons.mp he with he | he
        · rw [he]; omega
        · exact hl₁ e he

/-- Multimap insertion preserves key-sortedness. -/
theorem qmmInsert_sorted (m : List (ℕ × String)) (k : ℕ) (v : String)
    (h : KSorted m) : KSorted (qmmInsert m k v) := by
  obtain ⟨l₁, l₂, hm, hins, hl₁, hl₂⟩ := qmmInsert_split m k v h
  rw [hins]
  rw [hm] at h
  rw [KSorted, List.pairwise_append] at h ⊢
  obtain ⟨hp₁, hp₂, hcross⟩ := h
  refine ⟨hp₁, ?_, ?_⟩
  · rw [List.pairwise_cons]
    exact ⟨fun e he => hl₂ e he, hp₂⟩
  · intro a ha b hb
    rcases List.mem_cons.mp hb with hb | hb
    · rw [hb]
      exact le_of_lt (hl₁ a ha)
    · exact hcross a ha b hb

/-- Multimap insertion keeps every existing entry. -/
theorem qmmInsert_mem (m : List (ℕ × String)) (k : ℕ) (v : String)
    (e : ℕ × String) (he : e ∈ m) : e ∈ qmmInsert m k v := by
  induction m with
  | nil => cases he
  | cons hd rest ih =>
    rcases hd with ⟨k', v'⟩
    simp only [qmmInsert]
    split_ifs
    · exact List.mem_cons_of_mem _ he
    · rcases List.mem_cons.mp he with he | he
      · rw [he]; exact List.mem_cons_self _ _
      · exact List.mem_cons_of_mem _ (ih he)

/-- Positions transport across a middle insertion. -/
theorem get?_insert_middle (A B : List String) (v : String) (n : ℕ) :
    (A ++ v :: B).get? (if n < A.length then n else n + 1) = (A ++ B).get? n := by
  by_cases h : n < A.length
  · rw [if_pos h, List.get?_append h, List.get?_append h]
  · rw [if_neg h]
    rw [List.get?_append_right (by omega), List.get?_append_right (by omega)]
    have hsub : n + 1 - A.length = (n - A.length) + 1 := by omega
    rw [hsub, List.get?_cons_succ]

/-- Relative order of existing values survives a multimap insertion. -/
theorem before_qmmInsert (m : List (ℕ × String)) (k : ℕ) (v : String)
    (h : KSorted m) (a b : String) (hb : Before (m.map Prod.snd) a b) :
    Before ((qmmInsert m k v).map Prod.snd) a b := by
  obtain ⟨l₁, l₂, hm, hins, _, _⟩ := qmmInsert_split m k v h
  obtain ⟨i, j, hij, hi, hj⟩ := hb
  rw [hm, List.map_append] at hi hj
  rw [hins, List.map_append, List.map_cons]
  refine ⟨if i < (l₁.map Prod.snd).length then i else i + 1,
    if j < (l₁.map Prod.snd).length then j else j + 1, ?_, ?_, ?_⟩
  · split_ifs <;> omega
  · rw [get?_insert_middle]; exact hi
  · rw [get?_insert_middle]; exact hj

/-- A freshly inserted value lands after every entry with a strictly smaller
key. -/
theorem before_qmmInsert_of_lt (m : List (ℕ × String)) (k : ℕ) (v : String)
    (h : KSorted m) (k₀ : ℕ) (v₀ : String) (hmem : (k₀, v₀) ∈ m) (hk : k₀ < k) :
    Before ((qmmInsert m k v).map Prod.snd) v₀ v := by
  obtain ⟨l₁, l₂, hm, hins, hl₁, hl₂⟩ := qmmInsert_split m k v h
  have hmem₁ : (k₀, v₀) ∈ l₁ := by
    rcases List.mem_append.mp (hm ▸ hmem) with h' | h'
    · exact h'
    · exact absurd (hl₂ _ h') (by omega)
  obtain ⟨i, hi⟩ := List.mem_iff_get?.mp hmem₁
  have hlt : i < l₁.length := by
    by_contra hge
    rw [List.get?_eq_none.mpr (by omega)] at hi
    cases hi
  rw [hins, List.map_append, List.map_cons]
  refine ⟨i, l₁.length, hlt, ?_, ?_⟩
  · rw [List.get?_append (by simpa using hlt), List.get?_map, hi]
    rfl
  · rw [List.get?_append_right (by simp), List.length_map]
    simp

/-- A freshly inserted value lands before every entry with an equal or larger
key — within one key, most recently inserted first. -/
theorem before_qmmInsert_of_ge (m : List (ℕ × String)) (k : ℕ) (v : String)
    (h : KSorted m) (k₀ : ℕ) (v₀ : String) (hmem : (k₀, v₀) ∈ m) (hk : k ≤ k₀) :
    Before ((qmmInsert m k v).map Prod.snd) v v₀ := by
  obtain ⟨l₁, l₂, hm, hins, hl₁, hl₂⟩ := qmmInsert_split m k v h
  have hmem₂ : (k₀, v₀) ∈ l₂ := by
    rcases List.mem_append.mp (hm ▸ hmem) with h' | h'
    · exact absurd (hl₁ _ h') (by omega)
    · exact h'
  obtain ⟨j, hj⟩ := List.mem_iff_get?.mp hmem₂
  have hjlt : j < l₂.length := by
    by_contra hge
    rw [List.get?_eq_none.mpr (by omega)] at hj
    cases hj
  rw [hins, List.map_append, List.map_cons]
  refine ⟨l₁.length, l₁.length + 1 + j, by omega, ?_, ?_⟩
  · rw [List.get?_append_right (by simp), List.length_map]
    simp
  · rw [List.get?_append_right (by simp [List.length_map]; omega)]
    rw [List.length_map]
    have hidx : l₁.length + 1 + j - l₁.length = j + 1 := by omega
    rw [hidx, List.get?_cons_succ, List.get?_map, hj]
    rfl

/-- Unfolding one build step. -/
theorem qmmBuild_concat (es : List (ℕ × String)) (e : ℕ × String) :
    qmmBuild (es ++ [e]) = qmmInsert (qmmBuild es) e.1 e.2 := by
  rw [qmmBuild, List.foldl_append]
  rfl

/-- The built multimap is key-sorted. -/
theorem qmmBuild_sorted (es : List (ℕ × String)) : KSorted (qmmBuild es) := by
  induction es using List.reverseRecOn with
  | nil => exact List.Pairwise.nil
  | append_singleton es e ih =>
    rw [qmmBuild_concat]
    exact qmmInsert_sorted _ _ _ ih

/-- Every inserted entry is in the built multimap. -/
theorem qmmBuild_mem (es : List (ℕ × String)) (e : ℕ × String) (he : e ∈ es) :
    e ∈ qmmBuild es := by
  induction es using List.reverseRecOn with
  | nil => cases he
  | append_singleton es f ih =>
    rw [qmmBuild_concat]
    rcases List.mem_append.mp he with h' | h'
    · exact qmmInsert_mem _ _ _ _ (ih h')
    · have : e = f := by simpa using h'
      subst this
      obtain ⟨l₁, l₂, _, hins, _, _⟩ :=
        qmmInsert_split (qmmBuild es) e.1 e.2 (qmmBuild_sorted es)
      rw [hins]
      simp

/-- Iteration order of the built multimap: ascending keys, and within equal
keys the later-inserted entry first. -/
theorem qmmBuild_order (es : List (ℕ × String)) :
    ∀ i j ei ej, es.get? i = some ei → es.get? j = some ej → i < j →
      (ei.1 < ej.1 → Before ((qmmBuild es).map Prod.snd) ei.2 ej.2) ∧
      (ej.1 ≤ ei.1 → Before ((qmmBuild es).map Prod.snd) ej.2 ei.2) := by
  induction es using List.reverseRecOn with
  | nil =>
    intro i j ei ej hi _ _
    rw [List.get?_eq_none.mpr (by simp)] at hi
    cases hi
  | append_singleton es e ih =>
    intro i j ei ej hi hj hij
    have hjlen : j < es.length + 1 := by
      by_contra hge
      rw [List.get?_eq_none.mpr (by simp; omega)] at hj
      cases hj
    rw [qmmBuild_concat]
    by_cases hjlt : j < es.length
    · have hi' : es.get? i = some ei := by
        rw [List.get?_append (by omega)] at hi
        exact hi
      have hj' : es.get? j = some ej := by
        rw [List.get?_append hjlt] at hj
        exact hj
      have hb := ih i j ei ej hi' hj' hij
      exact ⟨fun hlt => before_qmmInsert _ _ _ (qmmBuild_sorted es) _ _ (hb.1 hlt),
        fun hle => before_qmmInsert _ _ _ (qmmBuild_sorted es) _ _ (hb.2 hle)⟩
    · have hj2 : j = es.length := by omega
      have hej : ej = e := by
        rw [hj2, List.get?_concat_length] at hj
        exact (Option.some.inj hj).symm
      have hi' : es.get? i = some ei := by
        rw [List.get?_append (by omega)] at hi
        exact hi
      have hmem : ei ∈ es := List.get?_mem hi'
      subst hej
      constructor
      · intro hlt
        exact before_qmmInsert_of_lt (qmmBuild es) ej.1 ej.2 (qmmBuild_sorted es)
          ei.1 ei.2 (qmmBuild_mem es ei hmem) hlt
      · intro hle
        exact before_qmmInsert_of_ge (qmmBuild es) ej.1 ej.2 (qmmBuild_sorted es)
          ei.1 ei.2 (qmmBuild_mem es ei hmem) hle

/-- Stage 2a as a pure build over the per-section entries. -/
theorem depLevelMapM_eq (sections : List IniSection) :
    depLevelMapM sections = (depEntries sections).map qmmBuild := by
  have hgen : ∀ (secs : List IniSection) (m0 : List (ℕ × String)),
      (secs.foldlM (fun m sec => (depLevel sections sec.name).map (fun lv =>
        qmmInsert m lv ((List.lookup sec.name (secNameMap sections)).getD ""))) m0) =
      (secs.mapM (depEntry sections)).map
        (fun es => es.foldl (fun m e => qmmInsert m e.1 e.2) m0) := by
    intro secs
    induction secs with
    | nil => intro m0; rfl
    | cons s rest ihs =>
      intro m0
      rw [List.foldlM_cons, List.mapM_cons]
      rcases hde : depLevel sections s.name with _ | lv
      · simp [depEntry, hde]
      · simp only [depEntry, hde, Option.map_some']
        rw [show ((some (qmmInsert m0 lv
            ((List.lookup s.name (secNameMap sections)).getD ""))) >>=
            (fun m1 => List.foldlM (fun m sec => (depLevel sections sec.name).map
              (fun lv => qmmInsert m lv
                ((List.lookup sec.name (secNameMap sections)).getD ""))) m1 rest)) =
            List.foldlM (fun m sec => (depLevel sections sec.name).map (fun lv =>
              qmmInsert m lv ((List.lookup sec.name (secNameMap sections)).getD "")))
              (qmmInsert m0 lv ((List.lookup s.name (secNameMap sections)).getD ""))
              rest from rfl]
        rw [ihs]
        rcases hrest : rest.mapM (depEntry sections) with _ | es
        · rfl
        · rfl
  rw [depLevelMapM, depEntries, hgen]
  rcases List.mapM (depEntry sections) sections with _ | es <;> rfl

/-- Elementwise reading of a successful `mapM` over `Option`. -/
theorem mapM_option_get {α β : Type} (f : α → Option β) :
    ∀ (l : List α) (es : List β), l.mapM f = some es →
      ∀ i a, l.get? i = some a → ∃ b, f a = some b ∧ es.get? i = some b := by
  intro l
  induction l with
  | nil =>
    intro es _ i a hi
    rw [List.get?_eq_none.mpr (by simp)] at hi
    cases hi
  | cons x rest ih =>
    intro es h i a hi
    rw [List.mapM_cons] at h
    rcases hfx : f x with _ | b
    · rw [hfx] at h; cases h
    · rw [hfx] at h
      rcases hrest : rest.mapM f with _ | bs
      · rw [hrest] at h; cases h
      · rw [hrest] at h
        have hes : es = b :: bs := by
          have : some (b :: bs) = some es := h
          exact (Option.some.inj this).symm
        subst hes
        match i with
        | 0 =>
          rw [List.get?_cons_zero] at hi
          have hxa : x = a := Option.some.inj hi
          subst hxa
          exact ⟨b, hfx, rfl⟩
        | i' + 1 =>
          rw [List.get?_cons_succ] at hi
          exact ih bs hrest i' a hi

/-- Lookup of the just-written key in a `QMap` overwrite-insert. -/
theorem lookup_qmapSet_self (m : List (String × String)) (k v : String) :
    List.lookup k (qmapSet m k v) = some v := by
  induction m with
  | nil => simp [qmapSet, List.lookup]
  | cons e rest ih =>
    rcases e with ⟨k', v'⟩
    simp only [qmapSet]
    split_ifs with h
    · simp [List.lookup]
    · simp [List.lookup, beq_eq_false_iff_ne.mpr h, ih]

/-- Lookup of a different key passes through a `QMap` overwrite-insert. -/
theorem lookup_qmapSet_ne (m : List (String × String)) (k v k' : String)
    (h : k' ≠ k) :
    List.lookup k' (qmapSet m k v) = List.lookup k' m := by
  induction m with
  | nil => simp [qmapSet, List.lookup, beq_eq_false_iff_ne.mpr h]
  | cons e rest ih =>
    rcases e with ⟨k'', v''⟩
    simp only [qmapSet]
    split_ifs with heq
    · subst heq
      simp [List.lookup, beq_eq_false_iff_ne.mpr h]
    · by_cases h2 : k' = k''
      · subst h2
        simp [List.lookup]
      · simp [List.lookup, beq_eq_false_iff_ne.mpr h2, ih]

/-- With pairwise distinct body names, `secNameMap` sends each section's name
to its section name. -/
theorem lookup_secNameMap (sections : List IniSection)
    (hnd : (sections.map (·.name)).Nodup) :
    ∀ s ∈ sections, List.lookup s.name (secNameMap sections) = some s.secname := by
  induction sections using List.reverseRecOn with
  | nil => intro s hs; cases hs
  | append_singleton pre t ih =>
    intro s hs
    have hmap : secNameMap (pre ++ [t]) = qmapSet (secNameMap pre) t.name t.secname := by
      rw [secNameMap, List.foldl_append]
      rfl
    rw [List.map_append] at hnd
    obtain ⟨hnd₁, _, hdisj⟩ := List.nodup_append.mp hnd
    rw [hmap]
    rcases List.mem_append.mp hs with hpre | hlast
    · have hne : s.name ≠ t.name := by
        intro heq
        exact hdisj (List.mem_map_of_mem _ hpre) (by simp [heq])
      rw [lookup_qmapSet_ne _ _ _ _ hne]
      exact ih hnd₁ s hpre
    · have hst : s = t := by simpa using hlast
      subst hst
      exact lookup_qmapSet_self _ _ _

/-- A name carried by no section is no key of `parentMap`. -/
theorem lookup_parentMap_not_mem (sections : List IniSection) (n : String)
    (h : ∀ s ∈ sections, s.name ≠ n) :
    List.lookup n (parentMap sections) = none := by
  induction sections using List.reverseRecOn with
  | nil => rfl
  | append_singleton pre t ih =>
    have hmap : parentMap (pre ++ [t]) =
        (if strParentOf t ≠ "none" ∧ strParentOf t ≠ "" ∧ t.name ≠ "" then
          qmapSet (parentMap pre) t.name (strParentOf t)
        else parentMap pre) := by
      rw [parentMap, List.foldl_append]
      rfl
    rw [hmap]
    have hpre : ∀ s ∈ pre, s.name ≠ n := fun s hs => h s (List.mem_append_left _ hs)
    have htn : t.name ≠ n := h t (List.mem_append_right _ (by simp))
    split_ifs
    · rw [lookup_qmapSet_ne _ _ _ _ (fun heq => htn heq.symm)]
      exact ih hpre
    · exact ih hpre

/-- With pairwise distinct body names, `parentMap` holds exactly the declared
parent of each section's name (when the stage-1 insertion guard passes). -/
theorem lookup_parentMap (sections : List IniSection)
    (hnd : (sections.map (·.name)).Nodup) :
    ∀ s ∈ sections, List.lookup s.name (parentMap sections) =
      (if strParentOf s ≠ "none" ∧ strParentOf s ≠ "" ∧ s.name ≠ "" then
        some (strParentOf s)
      else none) := by
  induction sections using List.reverseRecOn with
  | nil => intro s hs; cases hs
  | append_singleton pre t ih =>
    intro s hs
    have hmap : parentMap (pre ++ [t]) =
        (if strParentOf t ≠ "none" ∧ strParentOf t ≠ "" ∧ t.name ≠ "" then
          qmapSet (parentMap pre) t.name (strParentOf t)
        else parentMap pre) := by
      rw [parentMap, List.foldl_append]
      rfl
    rw [List.map_append] at hnd
    obtain ⟨hnd₁, _, hdisj⟩ := List.nodup_append.mp hnd
    rw [hmap]
    rcases List.mem_append.mp hs with hpre | hlast
    · have hne : s.name ≠ t.name := by
        intro heq
        exact hdisj (List.mem_map_of_mem _ hpre) (by simp [heq])
      by_cases hcond : strParentOf t ≠ "none" ∧ strParentOf t ≠ "" ∧ t.name ≠ ""
      · rw [if_pos hcond, lookup_qmapSet_ne _ _ _ _ hne]
        exact ih hnd₁ s hpre
      · rw [if_neg hcond]
        exact ih hnd₁ s hpre
    · have hst : s = t := by simpa using hlast
      subst hst
      have hsnot : ∀ u ∈ pre, u.name ≠ s.name := by
        intro u hu heq
        exact hdisj (List.mem_map_of_mem _ hu) (by simp [heq])
      by_cases hcond : strParentOf s ≠ "none" ∧ strParentOf s ≠ "" ∧ s.name ≠ ""
      · rw [if_pos hcond, if_pos hcond]
        exact lookup_qmapSet_self _ _ _
      · rw [if_neg hcond, if_neg hcond]
        exact lookup_parentMap_not_mem pre s.name hsnot

/-- Unfolding the depth walk when the name has no parent entry. -/
theorem levelAux_lookup_none (pm : List (String × String)) (fuel : ℕ) (p : String)
    (hl : List.lookup p pm = none) : levelAux pm fuel p = some 0 := by
  rw [levelAux, hl]

/-- Unfolding the depth walk when the parent entry is the literal "none". -/
theorem levelAux_lookup_stop (pm : List (String × String)) (fuel : ℕ) (p : String)
    (hl : List.lookup p pm = some "none") : levelAux pm fuel p = some 0 := by
  rw [levelAux, hl]
  simp

/-- The depth walk fails with no fuel left on a real parent entry. -/
theorem levelAux_zero_none (pm : List (String × String)) (p q : String)
    (hl : List.lookup p pm = some q) (hq : q ≠ "none") :
    levelAux pm 0 p = none := by
  rw [levelAux, hl]
  simp [hq]

/-- Unfolding one step of the depth walk on a real parent entry. -/
theorem levelAux_step (pm : List (String × String)) (fuel : ℕ) (p q : String)
    (hl : List.lookup p pm = some q) (hq : q ≠ "none") :
    levelAux pm (fuel + 1) p = (levelAux pm fuel q).map (· + 1) := by
  rw [levelAux, hl]
  simp [hq]

/-- The depth walk is stable under extra fuel. -/
theorem levelAux_mono (pm : List (String × String)) :
    ∀ f f' p v, f ≤ f' → levelAux pm f p = some v → levelAux pm f' p = some v := by
  intro f
  induction f with
  | zero =>
    intro f' p v _ h
    rcases hl : List.lookup p pm with _ | q
    · rw [levelAux_lookup_none pm 0 p hl] at h
      rw [levelAux_lookup_none pm f' p hl]
      exact h
    · by_cases hq : q = "none"
      · subst hq
        rw [levelAux_lookup_stop pm 0 p hl] at h
        rw [levelAux_lookup_stop pm f' p hl]
        exact h
      · rw [levelAux_zero_none pm p q hl hq] at h
        cases h
  | succ fk ihf =>
    intro f' p v hle h
    rcases f' with _ | fk'
    · omega
    · rcases hl : List.lookup p pm with _ | q
      · rw [levelAux_lookup_none _ _ _ hl] at h
        rw [levelAux_lookup_none _ _ _ hl]
        exact h
      · by_cases hq : q = "none"
        · subst hq
          rw [levelAux_lookup_stop _ _ _ hl] at h
          rw [levelAux_lookup_stop _ _ _ hl]
          exact h
        · rw [levelAux_step pm fk p q hl hq] at h
          rw [levelAux_step pm fk' p q hl hq]
          rcases hrec : levelAux pm fk q with _ | m
          · rw [hrec] at h; cases h
          · rw [hrec] at h
            simp only [Option.map_some'] at h
            rw [ihf fk' q m (by omega) hrec]
            simpa using h

/-- One step of the depth walk: a body whose declared parent is the name of
another section sits exactly one level below that section's body. -/
theorem depLevel_parent_step (sections : List IniSection)
    (hnd : (sections.map (·.name)).Nodup)
    (a b : IniSection) (ha : a ∈ sections) (hb : b ∈ sections)
    (hab : strParentOf b = a.name)
    (h1 : strParentOf b ≠ "none") (h2 : strParentOf b ≠ "") (h3 : b.name ≠ "")
    (la lb : ℕ) (hla : depLevel sections a.name = some la)
    (hlb : depLevel sections b.name = some lb) : lb = la + 1 := by
  have hlookup : List.lookup b.name (parentMap sections) = some (strParentOf b) := by
    rw [lookup_parentMap sections hnd b hb, if_pos ⟨h1, h2, h3⟩]
  rcases hfuel : (parentMap sections).length with _ | f
  · have hnil : parentMap sections = [] := List.length_eq_zero.mp hfuel
    rw [hnil] at hlookup
    cases hlookup
  · rw [depLevel, hfuel, levelAux_step (parentMap sections) f b.name
      (strParentOf b) hlookup h1] at hlb
    rcases hrec : levelAux (parentMap sections) f (strParentOf b) with _ | m
    · rw [hrec] at hlb; cases hlb
    · rw [hrec] at hlb
      simp only [Option.map_some'] at hlb
      have hlbm : lb = m + 1 := (Option.some.inj hlb).symm
      rw [hab] at hrec
      have hstep := levelAux_mono (parentMap sections) f (f + 1) a.name m
        (by omega) hrec
      rw [depLevel, hfuel] at hla
      rw [hstep] at hla
      have hm : m = la := Option.some.inj hla
      omega

/-- Claim C1 as amended: the ordered section sequence built in stage 2 of
`loadPlanets` sorts sections by ascending dependency depth; sections of equal
depth appear in reverse source order (the Qt 5 `QMultiMap` iterates equal
keys most-recently-inserted first); and in particular, every body whose
declared parent name is another section's body name comes strictly after
that section. -/
theorem catalogueOrder_spec (sections : List IniSection) (os : List String)
    (hnames : (sections.map (·.name)).Nodup)
    (hos : orderedSections sections = some os) :
    (∀ i j a b la lb, sections.get? i = some a → sections.get? j = some b →
      i < j →
      depLevel sections a.name = some la → depLevel sections b.name = some lb →
      (la < lb → Before os a.secname b.secname) ∧
      (lb ≤ la → Before os b.secname a.secname)) ∧
    (∀ i j a b, sections.get? i = some a → sections.get? j = some b → i ≠ j →
      strParentOf b = a.name → strParentOf b ≠ "none" → strParentOf b ≠ "" →
      b.name ≠ "" → Before os a.secname b.secname) := by
  rcases hdm : depLevelMapM sections with _ | m
  · rw [orderedSections, hdm] at hos
    cases hos
  · rw [orderedSections, hdm] at hos
    have hosm : os = m.map Prod.snd := (Option.some.inj hos).symm
    have hmb := depLevelMapM_eq sections
    rw [hdm] at hmb
    rcases hde : depEntries sections with _ | es
    · rw [hde] at hmb; cases hmb
    · rw [hde] at hmb
      have hmes : m = qmmBuild es := Option.some.inj hmb
      have hget := mapM_option_get (depEntry sections) sections es hde
      have hentry : ∀ i a la, sections.get? i = some a →
          depLevel sections a.name = some la → es.get? i = some (la, a.secname) := by
        intro i a la hi hla
        obtain ⟨e, hfa, hesi⟩ := hget i a hi
        rw [depEntry, hla, Option.map_some'] at hfa
        have hlk := lookup_secNameMap sections hnames a (List.get?_mem hi)
        rw [hlk] at hfa
        rw [hesi, ← Option.some.inj hfa]
        rfl
      have hlevels : ∀ i a, sections.get? i = some a →
          ∃ la, depLevel sections a.name = some la := by
        intro i a hi
        obtain ⟨e, hfa, _⟩ := hget i a hi
        rw [depEntry] at hfa
        rcases hdl : depLevel sections a.name with _ | la
        · rw [hdl] at hfa; cases hfa
        · exact ⟨la, rfl⟩
      have hpart1 : ∀ i j a b la lb, sections.get? i = some a →
          sections.get? j = some b → i < j →
          depLevel sections a.name = some la → depLevel sections b.name = some lb →
          (la < lb → Before os a.secname b.secname) ∧
          (lb ≤ la → Before os b.secname a.secname) := by
        intro i j a b la lb hi hj hij hla hlb
        have hesi := hentry i a la hi hla
        have hesj := hentry j b lb hj hlb
        have horder := qmmBuild_order es i j (la, a.secname) (lb, b.secname)
          hesi hesj hij
        rw [hosm, hmes]
        exact horder
      refine ⟨hpart1, ?_⟩
      intro i j a b hi hj hij hab h1 h2 h3
      obtain ⟨la, hla⟩ := hlevels i a hi
      obtain ⟨lb, hlb⟩ := hlevels j b hj
      have hstep := depLevel_parent_step sections hnames a b
        (List.get?_mem hi) (List.get?_mem hj) hab h1 h2 h3 la lb hla hlb
      rcases lt_or_gt_of_ne hij with hlt | hgt
      · exact (hpart1 i j a b la lb hi hj hlt hla hlb).1 (by omega)
      · exact (hpart1 j i b a lb la hj hi hgt hlb hla).2 (by omega)

/-- Witness for `catalogueOrder_spec` at a concrete three-section catalogue. -/
theorem catalogueOrder_spec_witness :
    (c1Sections.map (·.name)).Nodup ∧
    orderedSections c1Sections = some ["sun", "bbb", "aaa"] ∧
    ((∀ i j a b la lb, c1Sections.get? i = some a → c1Sections.get? j = some b →
      i < j →
      depLevel c1Sections a.name = some la → depLevel c1Sections b.name = some lb →
      (la < lb → Before ["sun", "bbb", "aaa"] a.secname b.secname) ∧
      (lb ≤ la → Before ["sun", "bbb", "aaa"] b.secname a.secname)) ∧
    (∀ i j a b, c1Sections.get? i = some a → c1Sections.get? j = some b → i ≠ j →
      strParentOf b = a.name → strParentOf b ≠ "none" → strParentOf b ≠ "" →
      b.name ≠ "" → Before ["sun", "bbb", "aaa"] a.secname b.secname)) :=
  ⟨by decide, by decide, catalogueOrder_spec c1Sections ["sun", "bbb", "aaa"]
    (by decide) (by decide)⟩

/-- Counterexample to claim C1 as stated: bodies A (section "aaa") and B
(section "bbb") have equal dependency depth and A precedes B in the source,
yet the `CatalogueOrder` lists "bbb" before "aaa" — equal-depth ties are
broken by reverse source order, not source order. -/
theorem catalogueOrder_tie_source_order_cex :
    orderedSections c1Sections = some ["sun", "bbb", "aaa"] ∧
    c1Sections.get? 1 = some c1aSec ∧ c1Sections.get? 2 = some c1bSec ∧
    depLevel c1Sections c1aSec.name = some 1 ∧
    depLevel c1Sections c1bSec.name = some 1 ∧
    List.indexOf "bbb" ["sun", "bbb", "aaa"] <
      List.indexOf "aaa" ["sun", "bbb", "aaa"] ∧
    Before ["sun", "bbb", "aaa"] "bbb" "aaa" :=
  ⟨by decide, by decide, by decide, by decide, by decide, by decide,
    ⟨1, 2, by omega, rfl, rfl⟩⟩

/-- Unfolding `computePosition` reads: only entry `i` changes. -/
theorem computePosition_get?_ne (sys : List EPlanet) (i : ℕ) (t : ℝ) (j : ℕ)
    (h : j ≠ i) : (computePosition sys i t).get? j = sys.get? j := by
  induction sys generalizing i j with
  | nil => rfl
  | cons p rest ih =>
    rcases i with _ | i'
    · rcases j with _ | j'
      · exact absurd rfl h
      · rfl
    · rcases j with _ | j'
      · rfl
      · rw [show computePosition (p :: rest) (i' + 1) t =
            p :: computePosition rest i' t from rfl]
        rw [List.get?_cons_succ, List.get?_cons_succ]
        exact ih i' j' (fun he => h (by omega))

/-- Entry `i` of `computePosition` holds the freshly evaluated position. -/
theorem computePosition_get?_eq (sys : List EPlanet) (i : ℕ) (t : ℝ) :
    (computePosition sys i t).get? i =
      (sys.get? i).map (fun p => { p with ecl := p.posfunc t }) := by
  induction sys generalizing i with
  | nil => rfl
  | cons p rest ih =>
    rcases i with _ | i'
    · rfl
    · rw [show computePosition (p :: rest) (i' + 1) t =
          p :: computePosition rest i' t from rfl]
      rw [List.get?_cons_succ, List.get?_cons_succ]
      exact ih i'

/-- `computePosition` keeps the body count. -/
theorem computePosition_length (sys : List EPlanet) (i : ℕ) (t : ℝ) :
    (computePosition sys i t).length = sys.length := by
  induction sys generalizing i with
  | nil => rfl
  | cons p rest ih =>
    rcases i with _ | i'
    · rfl
    · rw [show computePosition (p :: rest) (i' + 1) t =
          p :: computePosition rest i' t from rfl]
      simp [ih]

/-- Recomputing the same body's position twice keeps only the second date. -/
theorem computePosition_comp (sys : List EPlanet) (i : ℕ) (t1 t2 : ℝ) :
    computePosition (computePosition sys i t1) i t2 = computePosition sys i t2 := by
  induction sys generalizing i with
  | nil => rfl
  | cons p rest ih =>
    rcases i with _ | i'
    · rfl
    · show p :: computePosition (computePosition rest i' t1) i' t2 =
        p :: computePosition rest i' t2
      rw [ih]

/-- Reading an entry of the pass-1 state. -/
theorem pass1_get? (sys : List EPlanet) (T : ℝ) (i : ℕ) :
    (pass1 sys T).get? i = (sys.get? i).map (fun p => { p with ecl := p.posfunc T }) := by
  rw [pass1, List.get?_map]

/-- Pass 1 keeps the body count. -/
theorem pass1_length (sys : List EPlanet) (T : ℝ) :
    (pass1 sys T).length = sys.length := by
  rw [pass1, List.length_map]

/-- Pass 1 keeps the parent links. -/
theorem pass1_WF (sys : List EPlanet) (T : ℝ) (hwf : WFSys sys) :
    WFSys (pass1 sys T) := by
  intro i p j hi hp
  rw [pass1_get?] at hi
  rcases hg : sys.get? i with _ | q
  · rw [hg] at hi; cases hi
  · rw [hg, Option.map_some'] at hi
    have hq : { q with ecl := q.posfunc T } = p := Option.some.inj hi
    have hqp : q.parent = some j := by rw [← hq] at hp; exact hp
    exact hwf i q j hg hqp

/-- Recomputing at the pass-1 date is a no-op on the pass-1 state — the
observer restoration step of the aberration hack. -/
theorem pass1_computePosition (sys : List EPlanet) (T : ℝ) (i : ℕ) :
    computePosition (pass1 sys T) i T = pass1 sys T := by
  induction sys generalizing i with
  | nil => rfl
  | cons p rest ih =>
    rcases i with _ | i'
    · rfl
    · show { p with ecl := p.posfunc T } :: computePosition (pass1 rest T) i' T =
        { p with ecl := p.posfunc T } :: pass1 rest T
      rw [ih]

/-- Unfolding the heliocentric accumulator at positive fuel. -/
theorem helioAux_succ (sys : List EPlanet) (f i : ℕ) :
    helioAux sys (f + 1) i =
      (match sys.get? i with
       | none => 0
       | some p =>
         p.ecl + (match p.parent with | none => 0 | some j => helioAux sys f j)) := rfl

/-- On the pass-1 state, the heliocentric accumulator is the raw orbit-model
composition through the parent chain. -/
theorem helioAux_pass1 (sys : List EPlanet) (T : ℝ) :
    ∀ fuel i, helioAux (pass1 sys T) fuel i = rawChainAux sys T fuel i := by
  intro fuel
  induction fuel with
  | zero => intro i; rfl
  | succ f ih =>
    intro i
    rw [helioAux_succ, rawChainAux, pass1_get?]
    rcases hg : sys.get? i with _ | p
    · rfl
    · simp only [Option.map_some']
      rcases hp : p.parent with _ | j <;> simp [hp, ih]

/-- Claim C6: with light-travel-time correction disabled, `computePositions`
stores every body's raw `positionAt(dateJDE)`, each body's heliocentric
position is the orbit models composed through the parent chain at the single
date `dateJDE` (zero time offset), and the stored light-time sun-position
offset is the zero vector. -/
theorem computePositions_instantaneous (sys : List EPlanet) (T : ℝ) (obs : ℕ) :
    (computePositions false T obs sys).lightTimeSunPosition = 0 ∧
    (computePositions false T obs sys).systemPlanets = pass1 sys T ∧
    ∀ i, helio (computePositions false T obs sys).systemPlanets i = rawChain sys T i := by
  refine ⟨rfl, rfl, ?_⟩
  intro i
  show helio (pass1 sys T) i = rawChain sys T i
  rw [helio, pass1_length, rawChain]
  exact helioAux_pass1 sys T sys.length i

/-- The final-state heliocentric accumulator ignores an absent parent. -/
theorem helioFinalAux_none (sys1 : List EPlanet) (o : Vec3) (T : ℝ) (fuel : ℕ) :
    helioFinalAux sys1 o T fuel none = 0 := by
  cases fuel <;> rfl

/-- Unfolding the final-state heliocentric accumulator at positive fuel. -/
theorem helioFinalAux_succ (sys1 : List EPlanet) (o : Vec3) (T : ℝ) (f i : ℕ) :
    helioFinalAux sys1 o T (f + 1) (some i) =
      (match sys1.get? i with
       | none => 0
       | some p =>
         p.posfunc (T - vlen ((p.ecl + helioFinalAux sys1 o T f p.parent) - o) *
             (AU / (SPEED_OF_LIGHT * 86400)))
           + helioFinalAux sys1 o T f p.parent) := rfl

/-- Reading `eclFinal` at a present body. -/
theorem eclFinal_some (sys1 : List EPlanet) (o : Vec3) (T : ℝ) (i : ℕ)
    (p : EPlanet) (h : sys1.get? i = some p) :
    eclFinal sys1 o T i =
      p.posfunc (T - vlen ((p.ecl + helioFinalAux sys1 o T sys1.length p.parent) - o) *
        (AU / (SPEED_OF_LIGHT * 86400))) := by
  rw [eclFinal, h]

/-- The final-state heliocentric accumulator is fuel-stable once the fuel
exceeds the index (parent chains strictly descend). -/
theorem helioFinalAux_fuel (sys1 : List EPlanet) (o : Vec3) (T : ℝ)
    (hwf : WFSys sys1) :
    ∀ j, ∀ f₁ f₂, j < f₁ → j < f₂ →
      helioFinalAux sys1 o T f₁ (some j) = helioFinalAux sys1 o T f₂ (some j) := by
  intro j
  induction j using Nat.strong_induction_on with
  | _ j ihj =>
    intro f₁ f₂ h₁ h₂
    obtain ⟨g₁, hg₁⟩ : ∃ g, f₁ = g + 1 := ⟨f₁ - 1, by omega⟩
    obtain ⟨g₂, hg₂⟩ : ∃ g, f₂ = g + 1 := ⟨f₂ - 1, by omega⟩
    subst hg₁; subst hg₂
    rw [helioFinalAux_succ, helioFinalAux_succ]
    rcases hg : sys1.get? j with _ | p
    · rfl
    · dsimp only
      rcases hp : p.parent with _ | j₂
      · rw [helioFinalAux_none, helioFinalAux_none]
      · have hj₂ : j₂ < j := hwf j p j₂ hg hp
        rw [ihj j₂ hj₂ g₁ g₂ (by omega) (by omega)]

/-- During the pass-3 sweep, an already-recomputed body's heliocentric
position reads as its final value (`helioFinalAux`): its own final
parent-relative position plus the final positions of its ancestors. -/
theorem helioAux_inv (sys1 : List EPlanet) (o : Vec3) (T : ℝ) (hwf : WFSys sys1)
    (m : ℕ) (hm : m ≤ sys1.length) (s : List EPlanet)
    (hs : ∀ j, s.get? j = (if j < m then (sys1.get? j).map
      (fun p => { p with ecl := eclFinal sys1 o T j }) else sys1.get? j)) :
    ∀ j, j < m → ∀ fuel, j < fuel →
      helioAux s fuel j = helioFinalAux sys1 o T fuel (some j) := by
  intro j
  induction j using Nat.strong_induction_on with
  | _ j ihj =>
    intro hjm fuel hjf
    obtain ⟨f, hf⟩ : ∃ f, fuel = f + 1 := ⟨fuel - 1, by omega⟩
    subst hf
    rw [helioAux_succ, helioFinalAux_succ, hs j, if_pos hjm]
    rcases hg : sys1.get? j with _ | p
    · rfl
    · simp only [Option.map_some']
      rw [eclFinal_some sys1 o T j p hg]
      rcases hp : p.parent with _ | j₂
      · dsimp only
        rw [helioFinalAux_none, helioFinalAux_none]
      · dsimp only
        have hj₂ : j₂ < j := hwf j p j₂ hg hp
        rw [ihj j₂ hj₂ (by omega) f (by omega)]
        rw [helioFinalAux_fuel sys1 o T hwf j₂ sys1.length f
          (by omega) (by omega)]

/-- The pass-3 fold of `computePositions` keeps the body count. -/
theorem pass3_fold_length (sys1 : List EPlanet) (o : Vec3) (T : ℝ) (m : ℕ) :
    ((List.range m).foldl (fun s i => computePosition s i
        (T - vlen (helio s i - o) * (AU / (SPEED_OF_LIGHT * 86400)))) sys1).length =
      sys1.length := by
  induction m with
  | zero => rfl
  | succ m ih =>
    rw [List.range_succ, List.foldl_append, List.foldl_cons, List.foldl_nil]
    rw [computePosition_length, ih]

/-- State of the pass-3 sweep after the first `m` bodies: each processed body
holds its final position, the rest still hold their pass-1 positions. -/
theorem pass3_fold_get? (sys1 : List EPlanet) (o : Vec3) (T : ℝ)
    (hwf : WFSys sys1) :
    ∀ m, m ≤ sys1.length → ∀ j,
      ((List.range m).foldl (fun s i => computePosition s i
          (T - vlen (helio s i - o) * (AU / (SPEED_OF_LIGHT * 86400)))) sys1).get? j =
        (if j < m then (sys1.get? j).map
          (fun p => { p with ecl := eclFinal sys1 o T j })
        else sys1.get? j) := by
  intro m
  induction m with
  | zero =>
    intro _ j
    rw [if_neg (by omega)]
    rfl
  | succ m ih =>
    intro hm j
    have hm' : m ≤ sys1.length := by omega
    have hIH := ih hm'
    rw [List.range_succ, List.foldl_append, List.foldl_cons, List.foldl_nil]
    obtain ⟨p, hp⟩ : ∃ p, sys1.get? m = some p := by
      rcases hg : sys1.get? m with _ | p
      · have := List.get?_eq_none.mp hg
        omega
      · exact ⟨p, rfl⟩
    have hSlen : ((List.range m).foldl (fun s i => computePosition s i
        (T - vlen (helio s i - o) * (AU / (SPEED_OF_LIGHT * 86400)))) sys1).length =
        sys1.length := pass3_fold_length sys1 o T m
    have hhelio : helio ((List.range m).foldl (fun s i => computePosition s i
        (T - vlen (helio s i - o) * (AU / (SPEED_OF_LIGHT * 86400)))) sys1) m =
        p.ecl + helioFinalAux sys1 o T sys1.length p.parent := by
      obtain ⟨L, hL⟩ : ∃ L, sys1.length = L + 1 := ⟨sys1.length - 1, by omega⟩
      rw [helio, hSlen, hL, helioAux_succ, hIH m, if_neg (by omega), hp]
      dsimp only
      rcases hpar : p.parent with _ | j₂
      · dsimp only
        rw [helioFinalAux_none]
      · dsimp only
        have hj₂ : j₂ < m := hwf m p j₂ hp hpar
        rw [helioAux_inv sys1 o T hwf m hm' _ hIH j₂ hj₂ L (by omega)]
        rw [helioFinalAux_fuel sys1 o T hwf j₂ L (L + 1) (by omega) (by omega)]
    by_cases hj : j = m
    · subst hj
      rw [computePosition_get?_eq, hIH j, if_neg (by omega), if_pos (by omega), hp]
      rw [hhelio]
      simp only [Option.map_some']
      rw [eclFinal_some sys1 o T j p hp]
    · rw [computePosition_get?_ne _ _ _ _ hj, hIH j]
      by_cases hjm : j < m
      · rw [if_pos hjm, if_pos (by omega)]
      · rw [if_neg hjm, if_neg (by omega)]

/-- Unfolding `computePositions` with the light-time flag on: after the
observer restoration the pass-3 sweep starts from the pass-1 state. -/
theorem computePositions_true_unfold (sys : List EPlanet) (T : ℝ) (obs : ℕ) :
    computePositions true T obs sys =
      ⟨(List.range (pass1 sys T).length).foldl
        (fun s i => computePosition s i
          (T - vlen (helio s i - helio (pass1 sys T) obs) *
            (AU / (SPEED_OF_LIGHT * 86400))))
        (pass1 sys T),
       helio (pass1 sys T) obs -
         helio (computePosition (pass1 sys T) obs
           (T - vlen (helio (pass1 sys T) obs) * (AU / (SPEED_OF_LIGHT * 86400)))) obs⟩ := by
  have hrestore : computePosition (computePosition (pass1 sys T) obs
      (T - vlen (helio (pass1 sys T) obs) * (AU / (SPEED_OF_LIGHT * 86400)))) obs T =
      pass1 sys T := by
    rw [computePosition_comp, pass1_computePosition]
  have h0 : computePositions true T obs sys =
      ⟨(List.range (computePosition (computePosition (pass1 sys T) obs
          (T - vlen (helio (pass1 sys T) obs) * (AU / (SPEED_OF_LIGHT * 86400)))) obs
            T).length).foldl
        (fun s i => computePosition s i
          (T - vlen (helio s i - helio (pass1 sys T) obs) *
            (AU / (SPEED_OF_LIGHT * 86400))))
        (computePosition (computePosition (pass1 sys T) obs
          (T - vlen (helio (pass1 sys T) obs) * (AU / (SPEED_OF_LIGHT * 86400)))) obs T),
       helio (pass1 sys T) obs -
         helio (computePosition (pass1 sys T) obs
           (T - vlen (helio (pass1 sys T) obs) * (AU / (SPEED_OF_LIGHT * 86400)))) obs⟩ := by
    rw [computePositions, if_pos rfl]
  rw [hrestore] at h0
  exact h0

/-- Claim C2 as amended: with light travel time on, `computePositions`
(i) stores as `lightTimeSunPosition` the difference between the observer's
pass-1 heliocentric position and its heliocentric position re-evaluated at
`dateJDE` minus (observer distance · AU/(c·86400)), the observer being
restored to its pass-1 position afterwards; and (ii) pass 3 recomputes every
body at `dateJDE` minus a delay read from the in-order sweep: the delay of
body `j` is `AU/(c·86400)` times the distance between (its own pass-1
parent-relative position composed with its ancestors' already-recomputed
final positions) and the observer's pass-1 heliocentric position — as
captured by `eclFinal`. -/
theorem computePositions_lightTime_spec (sys : List EPlanet) (T : ℝ) (obs : ℕ)
    (hwf : WFSys sys) :
    (computePositions true T obs sys).lightTimeSunPosition =
      helio (pass1 sys T) obs -
        helio (computePosition (pass1 sys T) obs
          (T - vlen (helio (pass1 sys T) obs) * (AU / (SPEED_OF_LIGHT * 86400)))) obs ∧
    ∀ j, (computePositions true T obs sys).systemPlanets.get? j =
      ((pass1 sys T).get? j).map
        (fun p => { p with
          ecl := eclFinal (pass1 sys T) (helio (pass1 sys T) obs) T j }) := by
  rw [computePositions_true_unfold]
  refine ⟨rfl, ?_⟩
  intro j
  show ((List.range (pass1 sys T).length).foldl (fun s i => computePosition s i
      (T - vlen (helio s i - helio (pass1 sys T) obs) *
        (AU / (SPEED_OF_LIGHT * 86400)))) (pass1 sys T)).get? j = _
  rw [pass3_fold_get? (pass1 sys T) (helio (pass1 sys T) obs) T
    (pass1_WF sys T hwf) (pass1 sys T).length (le_refl _) j]
  by_cases hj : j < (pass1 sys T).length
  · rw [if_pos hj]
  · rw [if_neg hj]
    have hnone : (pass1 sys T).get? j = none := List.get?_eq_none.mpr (by omega)
    rw [hnone]
    rfl

/-- The light-time factor is positive. -/
theorem kLT_pos : 0 < kLT := by
  rw [kLT, AU, SPEED_OF_LIGHT]
  positivity

/-- The jumping body's orbit model before date `0`. -/
theorem earthE_posfunc_of_neg (t : ℝ) (h : t < 0) :
    earthE.posfunc t = ((3 : ℝ), 0, 0) := by
  show (if t < 0 then ((3 : ℝ), 0, 0) else ((1 : ℝ), 0, 0)) = _
  rw [if_pos h]

/-- The jumping body's orbit model from date `0` on. -/
theorem earthE_posfunc_of_nonneg (t : ℝ) (h : ¬ t < 0) :
    earthE.posfunc t = ((1 : ℝ), 0, 0) := by
  show (if t < 0 then ((3 : ℝ), 0, 0) else ((1 : ℝ), 0, 0)) = _
  rw [if_neg h]

/-- The concrete system is well-formed. -/
theorem c2sysWF : WFSys c2sys := by
  intro i p j hi hp
  match i with
  | 0 =>
    rw [← Option.some.inj hi] at hp
    exact absurd hp (by simp [sunE])
  | 1 =>
    rw [← Option.some.inj hi] at hp
    have h0 : (0 : ℕ) = j := Option.some.inj hp
    omega
  | 2 =>
    rw [← Option.some.inj hi] at hp
    have h1 : (1 : ℕ) = j := Option.some.inj hp
    omega
  | n + 3 =>
    rw [show c2sys.get? (n + 3) = none from rfl] at hi
    cases hi

/-- Pass 1 of `c2sys` at date `0` evaluates to `c2sys1`. -/
theorem c2_pass1 : pass1 c2sys 0 = c2sys1 := by
  rw [show pass1 c2sys 0 =
    [⟨sunE.posfunc, 0, none⟩, ⟨earthE.posfunc, earthE.posfunc 0, some 0⟩,
     ⟨moonE.posfunc, 0, some 1⟩] from rfl,
    earthE_posfunc_of_nonneg 0 (lt_irrefl 0)]
  rfl

/-- The observer (body `0`) sits at the origin after pass 1. -/
theorem c2_helio_obs : helio c2sys1 0 = 0 := by
  rw [show helio c2sys1 0 = helioAux c2sys1 3 0 from rfl,
    show (3 : ℕ) = 2 + 1 from rfl, helioAux_succ,
    show c2sys1.get? 0 = some ⟨sunE.posfunc, 0, none⟩ from rfl]
  show (0 : Vec3) + 0 = 0
  simp

/-- The pass-1 heliocentric position of body `2`. -/
theorem c2_helio_moon : helio c2sys1 2 = ((1 : ℝ), 0, 0) := by
  rw [show helio c2sys1 2 = helioAux c2sys1 3 2 from rfl,
    show (3 : ℕ) = 2 + 1 from rfl, helioAux_succ,
    show c2sys1.get? 2 = some ⟨moonE.posfunc, 0, some 1⟩ from rfl]
  show (0 : Vec3) + helioAux c2sys1 2 1 = _
  rw [show (2 : ℕ) = 1 + 1 from rfl, helioAux_succ,
    show c2sys1.get? 1 = some ⟨earthE.posfunc, ((1 : ℝ), 0, 0), some 0⟩ from rfl]
  show (0 : Vec3) + (((1 : ℝ), 0, 0) + helioAux c2sys1 1 0) = _
  rw [show (1 : ℕ) = 0 + 1 from rfl, helioAux_succ,
    show c2sys1.get? 0 = some ⟨sunE.posfunc, 0, none⟩ from rfl]
  show (0 : Vec3) + (((1 : ℝ), 0, 0) + ((0 : Vec3) + 0)) = _
  simp

/-- In the pass-3 sweep the root keeps position `0` at every fuel. -/
theorem c2_hfin_sun (f : ℕ) : helioFinalAux c2sys1 0 0 (f + 1) (some 0) = 0 := by
  rw [helioFinalAux_succ,
    show c2sys1.get? 0 = some ⟨sunE.posfunc, 0, none⟩ from rfl]
  show sunE.posfunc (0 - vlen (((0 : Vec3) + helioFinalAux c2sys1 0 0 f none) - 0) *
      (AU / (SPEED_OF_LIGHT * 86400))) + helioFinalAux c2sys1 0 0 f none = 0
  rw [helioFinalAux_none]
  show (0 : Vec3) + 0 = 0
  simp

/-- Body `1` is recomputed at the (negative) delayed date, so its final
heliocentric position is `(3,0,0)` — not its pass-1 value `(1,0,0)`. -/
theorem c2_hfin_earth : helioFinalAux c2sys1 0 0 3 (some 1) = ((3 : ℝ), 0, 0) := by
  rw [show (3 : ℕ) = 2 + 1 from rfl, helioFinalAux_succ,
    show c2sys1.get? 1 = some ⟨earthE.posfunc, ((1 : ℝ), 0, 0), some 0⟩ from rfl]
  show earthE.posfunc (0 - vlen ((((1 : ℝ), 0, 0) +
        helioFinalAux c2sys1 0 0 (1 + 1) (some 0)) - 0) *
      (AU / (SPEED_OF_LIGHT * 86400))) +
      helioFinalAux c2sys1 0 0 (1 + 1) (some 0) = _
  rw [c2_hfin_sun 1]
  have hv : vlen ((((1 : ℝ), 0, 0) + (0 : Vec3)) - 0) = 1 := by
    rw [add_zero, sub_zero]
    show Real.sqrt ((1 : ℝ) ^ 2 + 0 ^ 2 + 0 ^ 2) = 1
    rw [show ((1 : ℝ) ^ 2 + 0 ^ 2 + 0 ^ 2) = 1 by norm_num, Real.sqrt_one]
  rw [hv]
  have hneg : (0 : ℝ) - 1 * (AU / (SPEED_OF_LIGHT * 86400)) < 0 := by
    have hk := kLT_pos
    rw [kLT] at hk
    linarith
  rw [earthE_posfunc_of_neg _ hneg]
  simp

/-- The final stored position of body `2`: the sweep reads its parent at the
already-recomputed position `(3,0,0)`, giving delay factor `3`. -/
theorem c2_eclFinal_moon : eclFinal c2sys1 0 0 2 = (-(3 * kLT), 0, 0) := by
  rw [eclFinal_some c2sys1 0 0 2 ⟨moonE.posfunc, 0, some 1⟩ rfl]
  rw [show c2sys1.length = 3 from rfl, c2_hfin_earth]
  have hv : vlen (((0 : Vec3) + ((3 : ℝ), 0, 0)) - 0) = 3 := by
    rw [zero_add, sub_zero]
    show Real.sqrt ((3 : ℝ) ^ 2 + 0 ^ 2 + 0 ^ 2) = 3
    rw [show ((3 : ℝ) ^ 2 + 0 ^ 2 + 0 ^ 2) = (3 : ℝ) ^ 2 by norm_num,
      Real.sqrt_sq (by norm_num : (0 : ℝ) ≤ 3)]
  rw [hv]
  show ((0 : ℝ) - 3 * (AU / (SPEED_OF_LIGHT * 86400)), 0, 0) = (-(3 * kLT), 0, 0)
  rw [show (0 : ℝ) - 3 * (AU / (SPEED_OF_LIGHT * 86400)) = -(3 * kLT) by rw [kLT]; ring]

/-- Claim C2, counterexample to the claimed delay source: on `c2sys` at date
`0` with observer `0`, pass 3 stores body `2` at `(-(3·kLT),0,0)` (its delay
is computed from its parent's already-recomputed final position `(3,0,0)`),
while recomputing body `2` at date `0` minus `kLT` times the distance
between its pass-1 heliocentric position and the observer's — the claim's
wording — would give `(-kLT,0,0)`; the two differ. -/
theorem computePositions_pass1_delay_cex :
    ((computePositions true 0 0 c2sys).systemPlanets.get? 2).map EPlanet.ecl =
      some (-(3 * kLT), 0, 0) ∧
    moonE.posfunc (0 - vlen (helio (pass1 c2sys 0) 2 - helio (pass1 c2sys 0) 0) *
        (AU / (SPEED_OF_LIGHT * 86400))) = (-kLT, 0, 0) ∧
    ((-(3 * kLT), 0, 0) : Vec3) ≠ (-kLT, 0, 0) := by
  refine ⟨?_, ?_, ?_⟩
  · have hwf1 : WFSys (pass1 c2sys 0) := pass1_WF c2sys 0 c2sysWF
    have hfold := pass3_fold_get? (pass1 c2sys 0) (helio (pass1 c2sys 0) 0) 0 hwf1
      (pass1 c2sys 0).length (le_refl _) 2
    rw [computePositions_true_unfold]
    dsimp only
    rw [hfold, c2_pass1, c2_helio_obs,
      show c2sys1.length = 3 from rfl, if_pos (by norm_num : (2 : ℕ) < 3),
      show c2sys1.get? 2 = some ⟨moonE.posfunc, 0, some 1⟩ from rfl]
    show some (eclFinal c2sys1 0 0 2) = _
    rw [c2_eclFinal_moon]
  · rw [c2_pass1, c2_helio_obs, c2_helio_moon]
    have hv : vlen ((((1 : ℝ), 0, 0) : Vec3) - 0) = 1 := by
      rw [sub_zero]
      show Real.sqrt ((1 : ℝ) ^ 2 + 0 ^ 2 + 0 ^ 2) = 1
      rw [show ((1 : ℝ) ^ 2 + 0 ^ 2 + 0 ^ 2) = 1 by norm_num, Real.sqrt_one]
    rw [hv]
    show ((0 : ℝ) - 1 * (AU / (SPEED_OF_LIGHT * 86400)), 0, 0) = (-kLT, 0, 0)
    rw [show (0 : ℝ) - 1 * (AU / (SPEED_OF_LIGHT * 86400)) = -kLT by rw [kLT]; ring]
  · intro h
    have h1 : -(3 * kLT) = -kLT := congrArg Prod.fst h
    have hk := kLT_pos
    linarith

/-- Witness: the amended light-time specification instantiated on the
concrete well-formed three-body system `c2sys`. -/
theorem computePositions_lightTime_spec_witness :
    WFSys c2sys ∧
    ((computePositions true 0 0 c2sys).lightTimeSunPosition =
      helio (pass1 c2sys 0) 0 -
        helio (computePosition (pass1 c2sys 0) 0
          (0 - vlen (helio (pass1 c2sys 0) 0) * (AU / (SPEED_OF_LIGHT * 86400)))) 0 ∧
    ∀ j, (computePositions true 0 0 c2sys).systemPlanets.get? j =
      ((pass1 c2sys 0).get? j).map
        (fun p => { p with
          ecl := eclFinal (pass1 c2sys 0) (helio (pass1 c2sys 0) 0) 0 j })) :=
  ⟨c2sysWF, computePositions_lightTime_spec c2sys 0 0 c2sysWF⟩

theorem sqrt_one_sub_div_sq (h X : ℝ) (hh : 0 < h) :
    Real.sqrt (1 - (X / Real.sqrt (h ^ 2 + X ^ 2)) ^ 2) =
      h / Real.sqrt (h ^ 2 + X ^ 2) := by
  have hS : 0 < h ^ 2 + X ^ 2 := by positivity
  have hS2 : Real.sqrt (h ^ 2 + X ^ 2) ^ 2 = h ^ 2 + X ^ 2 := Real.sq_sqrt hS.le
  have e1 : (1 : ℝ) - (X / Real.sqrt (h ^ 2 + X ^ 2)) ^ 2 =
      h ^ 2 / (h ^ 2 + X ^ 2) := by
    rw [div_pow, hS2]
    field_simp
  rw [e1, Real.sqrt_div (sq_nonneg h) _, Real.sqrt_sq hh.le]

theorem Fseg_hasDerivAt (h X : ℝ) (hh : 0 < h) :
    HasDerivAt (Fseg h)
      (2 * X * Real.arccos (X / Real.sqrt (h ^ 2 + X ^ 2)) - 2 * h) X := by
  have hS : 0 < h ^ 2 + X ^ 2 := by positivity
  have hSrt : 0 < Real.sqrt (h ^ 2 + X ^ 2) := Real.sqrt_pos.mpr hS
  have hS2 : Real.sqrt (h ^ 2 + X ^ 2) ^ 2 = h ^ 2 + X ^ 2 := Real.sq_sqrt hS.le
  have d1 : HasDerivAt (fun Y : ℝ => h ^ 2 + Y ^ 2) (2 * X) X := by
    have := (hasDerivAt_pow 2 X).const_add (h ^ 2)
    simpa using this
  have dsq : HasDerivAt (fun Y : ℝ => Real.sqrt (h ^ 2 + Y ^ 2))
      (2 * X / (2 * Real.sqrt (h ^ 2 + X ^ 2))) X := d1.sqrt (ne_of_gt hS)
  have du : HasDerivAt (fun Y : ℝ => Y / Real.sqrt (h ^ 2 + Y ^ 2))
      ((1 * Real.sqrt (h ^ 2 + X ^ 2) - X * (2 * X / (2 * Real.sqrt (h ^ 2 + X ^ 2)))) /
        Real.sqrt (h ^ 2 + X ^ 2) ^ 2) X :=
    (hasDerivAt_id X).div dsq (ne_of_gt hSrt)
  have hXlt : X < Real.sqrt (h ^ 2 + X ^ 2) := by
    have h1 : X ≤ |X| := le_abs_self X
    have h2 : |X| < Real.sqrt (h ^ 2 + X ^ 2) := by
      rw [← Real.sqrt_sq_eq_abs]
      exact Real.sqrt_lt_sqrt (sq_nonneg X) (by nlinarith)
    linarith
  have hnXlt : -Real.sqrt (h ^ 2 + X ^ 2) < X := by
    have h1 : -|X| ≤ X := neg_abs_le X
    have h2 : |X| < Real.sqrt (h ^ 2 + X ^ 2) := by
      rw [← Real.sqrt_sq_eq_abs]
      exact Real.sqrt_lt_sqrt (sq_nonneg X) (by nlinarith)
    linarith
  have hu_lt : X / Real.sqrt (h ^ 2 + X ^ 2) < 1 := (div_lt_one hSrt).mpr hXlt
  have hu_gt : -1 < X / Real.sqrt (h ^ 2 + X ^ 2) := by
    rw [neg_lt, ← neg_div]
    exact (div_lt_one hSrt).mpr (by linarith)
  have darc : HasDerivAt Real.arccos
      (-(1 / Real.sqrt (1 - (X / Real.sqrt (h ^ 2 + X ^ 2)) ^ 2)))
      (X / Real.sqrt (h ^ 2 + X ^ 2)) :=
    Real.hasDerivAt_arccos (ne_of_gt hu_gt) (ne_of_lt hu_lt)
  have dcomp : HasDerivAt (fun Y : ℝ => Real.arccos (Y / Real.sqrt (h ^ 2 + Y ^ 2)))
      (-(1 / Real.sqrt (1 - (X / Real.sqrt (h ^ 2 + X ^ 2)) ^ 2)) *
        ((1 * Real.sqrt (h ^ 2 + X ^ 2) - X * (2 * X / (2 * Real.sqrt (h ^ 2 + X ^ 2)))) /
          Real.sqrt (h ^ 2 + X ^ 2) ^ 2)) X := darc.comp X du
  have dmul : HasDerivAt
      (fun Y : ℝ => (h ^ 2 + Y ^ 2) * Real.arccos (Y / Real.sqrt (h ^ 2 + Y ^ 2)))
      (2 * X * Real.arccos (X / Real.sqrt (h ^ 2 + X ^ 2)) +
        (h ^ 2 + X ^ 2) *
          (-(1 / Real.sqrt (1 - (X / Real.sqrt (h ^ 2 + X ^ 2)) ^ 2)) *
            ((1 * Real.sqrt (h ^ 2 + X ^ 2) - X * (2 * X / (2 * Real.sqrt (h ^ 2 + X ^ 2)))) /
              Real.sqrt (h ^ 2 + X ^ 2) ^ 2))) X := d1.mul dcomp
  have dlin : HasDerivAt (fun Y : ℝ => h * Y) (h * 1) X :=
    (hasDerivAt_id X).const_mul h
  have dall := dmul.sub dlin
  rw [sqrt_one_sub_div_sq h X hh] at dall
  have hval : 2 * X * Real.arccos (X / Real.sqrt (h ^ 2 + X ^ 2)) +
      (h ^ 2 + X ^ 2) *
        (-(1 / (h / Real.sqrt (h ^ 2 + X ^ 2))) *
          ((1 * Real.sqrt (h ^ 2 + X ^ 2) - X * (2 * X / (2 * Real.sqrt (h ^ 2 + X ^ 2)))) /
            Real.sqrt (h ^ 2 + X ^ 2) ^ 2)) - h * 1 =
      2 * X * Real.arccos (X / Real.sqrt (h ^ 2 + X ^ 2)) - 2 * h := by
    have hgoal : ∀ s : ℝ, 0 < s → s ^ 2 = h ^ 2 + X ^ 2 → ∀ A : ℝ,
        2 * X * A + (h ^ 2 + X ^ 2) *
          (-(1 / (h / s)) * ((1 * s - X * (2 * X / (2 * s))) / s ^ 2)) - h * 1 =
        2 * X * A - 2 * h := by
      intro s hs hs2 A
      have hs' : s ≠ 0 := ne_of_gt hs
      have hh' : h ≠ 0 := ne_of_gt hh
      have e2 : X * (2 * X / (2 * s)) = X ^ 2 / s := by
        field_simp
        ring
      rw [one_mul, e2]
      have e3 : s - X ^ 2 / s = h ^ 2 / s := by
        rw [eq_div_iff hs', sub_mul, div_mul_cancel₀ _ hs']
        linear_combination hs2
      rw [e3]
      have e4 : h ^ 2 / s / s ^ 2 = h ^ 2 / s ^ 3 := by
        rw [div_div]
        congr 1
        ring
      rw [e4, one_div_div, ← hs2]
      field_simp
      ring
    exact hgoal (Real.sqrt (h ^ 2 + X ^ 2)) hSrt hS2
      (Real.arccos (X / Real.sqrt (h ^ 2 + X ^ 2)))
  rw [hval] at dall
  exact dall

theorem Fseg_antitone (h : ℝ) (hh : 0 < h) : Antitone (Fseg h) := by
  have hdiff : Differentiable ℝ (Fseg h) := fun X =>
    (Fseg_hasDerivAt h X hh).differentiableAt
  refine antitone_of_deriv_nonpos hdiff ?_
  intro X
  rw [(Fseg_hasDerivAt h X hh).deriv]
  have hS : 0 < h ^ 2 + X ^ 2 := by positivity
  have hSrt : 0 < Real.sqrt (h ^ 2 + X ^ 2) := Real.sqrt_pos.mpr hS
  rcases le_or_lt X 0 with hX | hX
  · have ha : 0 ≤ Real.arccos (X / Real.sqrt (h ^ 2 + X ^ 2)) := Real.arccos_nonneg _
    nlinarith
  · have hXlt : X < Real.sqrt (h ^ 2 + X ^ 2) := by
      have h1 : X ≤ |X| := le_abs_self X
      have h2 : |X| < Real.sqrt (h ^ 2 + X ^ 2) := by
        rw [← Real.sqrt_sq_eq_abs]
        exact Real.sqrt_lt_sqrt (sq_nonneg X) (by nlinarith)
      linarith
    have hu_pos : 0 < X / Real.sqrt (h ^ 2 + X ^ 2) := div_pos hX hSrt
    have hu_lt : X / Real.sqrt (h ^ 2 + X ^ 2) < 1 := (div_lt_one hSrt).mpr hXlt
    have hθpos : 0 < Real.arccos (X / Real.sqrt (h ^ 2 + X ^ 2)) :=
      Real.arccos_pos.mpr hu_lt
    have hθlt : Real.arccos (X / Real.sqrt (h ^ 2 + X ^ 2)) < Real.pi / 2 :=
      Real.arccos_lt_pi_div_two.mpr hu_pos
    have htan := Real.lt_tan hθpos hθlt
    rw [Real.tan_arccos, sqrt_one_sub_div_sq h X hh] at htan
    have hq : h / Real.sqrt (h ^ 2 + X ^ 2) / (X / Real.sqrt (h ^ 2 + X ^ 2)) =
        h / X := by
      rw [div_div_div_cancel_right₀]
      exact ne_of_gt hSrt
    rw [hq] at htan
    have hfin : Real.arccos (X / Real.sqrt (h ^ 2 + X ^ 2)) * X < h :=
      (lt_div_iff₀ hX).mp htan
    nlinarith

theorem Fseg_add_neg (h x : ℝ) :
    Fseg h x + Fseg h (-x) = Real.pi * (h ^ 2 + x ^ 2) := by
  rw [Fseg, Fseg, neg_sq, neg_div, Real.arccos_neg]
  ring

theorem Fseg_eq_segment (h x R : ℝ) (hh : 0 < h) (hRpos : 0 < R)
    (hR : h ^ 2 + x ^ 2 = R ^ 2) :
    R * R * (Real.arccos (x / R) -
      0.5 * Real.sin (2 * Real.arccos (x / R))) = Fseg h x := by
  have hs : Real.sqrt (h ^ 2 + x ^ 2) = R := by
    rw [hR]; exact Real.sqrt_sq hRpos.le
  have hx2 : x ^ 2 ≤ R ^ 2 := by nlinarith
  have hxabs : |x| ≤ R := by
    have := Real.sqrt_le_sqrt hx2
    rwa [Real.sqrt_sq_eq_abs, Real.sqrt_sq hRpos.le] at this
  have hxle : x / R ≤ 1 := by
    rw [div_le_one hRpos]; exact (abs_le.mp hxabs).2
  have hxge : -1 ≤ x / R := by
    rw [le_div_iff₀ hRpos]
    linarith [(abs_le.mp hxabs).1]
  have hsin : Real.sin (Real.arccos (x / R)) = Real.sqrt (1 - (x / R) ^ 2) :=
    Real.sin_arccos _
  have hcos : Real.cos (Real.arccos (x / R)) = x / R := Real.cos_arccos hxge hxle
  have hkey : Real.sqrt (1 - (x / R) ^ 2) = h / R := by
    have := sqrt_one_sub_div_sq h x hh
    rwa [hs] at this
  have hRne : R ≠ 0 := ne_of_gt hRpos
  rw [Fseg, hs, Real.sin_two_mul, hsin, hcos, hkey, hR]
  field_simp
  ring

theorem seg_nonneg (c θ : ℝ) (hc : 0 ≤ c) (hθ : 0 ≤ θ) :
    0 ≤ c * (θ - 0.5 * Real.sin (2 * θ)) := by
  have hs : Real.sin (2 * θ) ≤ 2 * θ := by
    rcases eq_or_lt_of_le hθ with h | h
    · rw [← h]; norm_num
    · exact (Real.sin_lt (by linarith)).le
  apply mul_nonneg hc
  nlinarith

theorem lens_bound (R r d x : ℝ) (hx : x = (R * R + d * d - r * r) / (2 * d))
    (hR0 : 0 ≤ R) (hr0 : 0 ≤ r) (hd0 : 0 ≤ d)
    (h1 : d < R + r) (h2 : r - R < d) (h3 : R - r < d) :
    (R * R * (Real.arccos (x / R) - 0.5 * Real.sin (2 * Real.arccos (x / R))) +
      r * r * (Real.arccos ((d - x) / r) -
        0.5 * Real.sin (2 * Real.arccos ((d - x) / r)))) /
      (R * R * 2 * Real.arcsin 1) ∈ Set.Icc (0 : ℝ) 1 := by
  have hRpos : 0 < R := by linarith
  have hrpos : 0 < r := by linarith
  have hdpos : 0 < d := by rcases le_total R r with h | h <;> linarith
  have hsq : (d - R) ^ 2 < r ^ 2 := by nlinarith
  have hxR : x < R := by
    rw [hx, div_lt_iff₀ (by linarith : (0 : ℝ) < 2 * d)]
    nlinarith
  have hsq2 : r ^ 2 < (R + d) ^ 2 := by nlinarith
  have hxR2 : -R < x := by
    rw [hx, lt_div_iff₀ (by linarith : (0 : ℝ) < 2 * d)]
    nlinarith
  have hhpos : 0 < R ^ 2 - x ^ 2 := by nlinarith
  obtain ⟨h, hh0, hh2⟩ : ∃ h : ℝ, 0 < h ∧ h ^ 2 = R ^ 2 - x ^ 2 :=
    ⟨Real.sqrt (R ^ 2 - x ^ 2), Real.sqrt_pos.mpr hhpos, Real.sq_sqrt hhpos.le⟩
  have hhR : h ^ 2 + x ^ 2 = R ^ 2 := by linarith
  have h2d : 2 * d * x = R * R + d * d - r * r := by
    rw [hx]; field_simp
  have hdx : h ^ 2 + (d - x) ^ 2 = r ^ 2 := by nlinarith [h2d]
  have hAR : R * R * (Real.arccos (x / R) -
      0.5 * Real.sin (2 * Real.arccos (x / R))) = Fseg h x :=
    Fseg_eq_segment h x R hh0 hRpos hhR
  have hAr : r * r * (Real.arccos ((d - x) / r) -
      0.5 * Real.sin (2 * Real.arccos ((d - x) / r))) = Fseg h (d - x) :=
    Fseg_eq_segment h (d - x) r hh0 hrpos hdx
  have hAS : R * R * 2 * Real.arcsin 1 = Real.pi * R ^ 2 := by
    rw [Real.arcsin_one]; ring
  have hFx : 0 ≤ Fseg h x := by
    rw [← hAR]
    exact seg_nonneg _ _ (by nlinarith) (Real.arccos_nonneg _)
  have hFdx : 0 ≤ Fseg h (d - x) := by
    rw [← hAr]
    exact seg_nonneg _ _ (by nlinarith) (Real.arccos_nonneg _)
  have hpair : Fseg h x + Fseg h (d - x) ≤ Real.pi * R ^ 2 := by
    have hmono : Fseg h (d - x) ≤ Fseg h (-x) := Fseg_antitone h hh0 (by linarith)
    have hsum := Fseg_add_neg h x
    rw [hhR] at hsum
    linarith
  have hASpos : 0 < Real.pi * R ^ 2 := by positivity
  rw [hAR, hAr, hAS, Set.mem_Icc]
  constructor
  · exact div_nonneg (by linarith) hASpos.le
  · rw [div_le_one hASpos]; linarith

theorem regime_bound (R r d : ℝ) (hR0 : 0 ≤ R) (hr0 : 0 ≤ r) (hd0 : 0 ≤ d) :
    (if d ≥ R + r then (1 : ℝ)
     else if d ≤ r - R then 0
     else if d ≤ R - r then 1 - r * r / (R * R)
     else
       1 - (R * R * (Real.arccos ((R * R + d * d - r * r) / (2 * d) / R) -
            0.5 * Real.sin (2 * Real.arccos ((R * R + d * d - r * r) / (2 * d) / R))) +
          r * r * (Real.arccos ((d - (R * R + d * d - r * r) / (2 * d)) / r) -
            0.5 * Real.sin (2 * Real.arccos ((d - (R * R + d * d - r * r) / (2 * d)) / r)))) /
          (R * R * 2 * Real.arcsin 1)) ∈ Set.Icc (0 : ℝ) 1 := by
  rw [Set.mem_Icc]
  split_ifs with h1 h2 h3
  · norm_num
  · norm_num
  · push_neg at h1 h2
    have hrR : r ≤ R := by linarith
    rcases eq_or_lt_of_le hR0 with hReq | hRpos
    · rw [← hReq]
      norm_num
    · have h2' : 0 ≤ r * r / (R * R) := by positivity
      have h3' : r * r / (R * R) ≤ 1 := by
        rw [div_le_one (by positivity : (0 : ℝ) < R * R)]
        nlinarith
      constructor <;> linarith
  · push_neg at h1 h2 h3
    have key := lens_bound R r d ((R * R + d * d - r * r) / (2 * d)) rfl hR0 hr0 hd0
      h1 h2 h3
    rw [Set.mem_Icc] at key
    constructor
    · linarith [key.2]
    · linarith [key.1]

/-- The per-occluder contribution always lies in `[0,1]` when the source and
occluder radii are nonnegative. -/
theorem contribution_mem (RS : ℝ) (Lp P3 C : Vec3) (radius : ℝ)
    (hRS : 0 ≤ RS) (hrad : 0 ≤ radius) :
    contribution RS Lp P3 C radius ∈ Set.Icc (0 : ℝ) 1 := by
  simp only [contribution]
  exact regime_bound (RS / vlen (Lp - P3)) (radius / vlen (C - P3))
    (vlen (vdiv (Lp - P3) (vlen (Lp - P3)) - vdiv (C - P3) (vlen (C - P3))))
    (div_nonneg hRS (Real.sqrt_nonneg _))
    (div_nonneg hrad (Real.sqrt_nonneg _))
    (Real.sqrt_nonneg _)

/-- The occluder scan never raises the running minimum. -/
theorem eclipseLoop_le_seed (inp : EclipseInput) :
    ∀ l : List (ℕ × OccBody), ∀ f : ℝ, eclipseLoop inp l f ≤ f := by
  intro l
  induction l with
  | nil => intro f; exact le_refl f
  | cons e rest ih =>
    intro f
    rcases e with ⟨i, p⟩
    rw [eclipseLoop]
    dsimp only
    split_ifs with hskip hlt
    · exact ih f
    · exact le_trans (ih _) hlt.le
    · exact ih f

/-- The scan result is bounded by the contribution of every non-skipped
element of the remaining list. -/
theorem eclipseLoop_le_mem (inp : EclipseInput) :
    ∀ l : List (ℕ × OccBody), ∀ f : ℝ, ∀ i : ℕ, ∀ p : OccBody,
      (i, p) ∈ l → ¬(i = inp.sunIdx ∨ i = inp.currentIdx) →
      eclipseLoop inp l f ≤
        contribution inp.sunRadius inp.lightTimeSunPosition inp.observerPos
          p.modelPos p.radius := by
  intro l
  induction l with
  | nil =>
    intro f i p hmem _
    exact absurd hmem (List.not_mem_nil _)
  | cons e rest ih =>
    intro f i p hmem hskip
    rcases e with ⟨j, q⟩
    rw [eclipseLoop]
    dsimp only
    rcases List.mem_cons.mp hmem with heq | hmem2
    · injection heq with h1 h2
      subst h1
      subst h2
      rw [if_neg hskip]
      refine le_trans (eclipseLoop_le_seed inp rest _) ?_
      split_ifs with hlt
      · exact le_refl _
      · linarith
    · split_ifs with hskip2 hlt
      · exact ih f i p hmem2 hskip
      · exact ih _ i p hmem2 hskip
      · exact ih f i p hmem2 hskip

/-- The scan keeps the running value in `[0,1]` when the seed is and all
radii are nonnegative. -/
theorem eclipseLoop_mem_Icc (inp : EclipseInput) (hRS : 0 ≤ inp.sunRadius) :
    ∀ l : List (ℕ × OccBody), ∀ f : ℝ,
      (∀ e ∈ l, 0 ≤ (Prod.snd e).radius) → f ∈ Set.Icc (0 : ℝ) 1 →
      eclipseLoop inp l f ∈ Set.Icc (0 : ℝ) 1 := by
  intro l
  induction l with
  | nil => intro f _ hf; exact hf
  | cons e rest ih =>
    intro f hrad hf
    rcases e with ⟨j, q⟩
    rw [eclipseLoop]
    dsimp only
    split_ifs with hskip hlt
    · exact ih f (fun e he => hrad e (List.mem_cons_of_mem _ he)) hf
    · refine ih _ (fun e he => hrad e (List.mem_cons_of_mem _ he)) ?_
      exact contribution_mem _ _ _ _ _ hRS (hrad (j, q) (List.mem_cons_self _ _))
    · exact ih f (fun e he => hrad e (List.mem_cons_of_mem _ he)) hf

/-- The scan result is the seed or the contribution of some non-skipped
element. -/
theorem eclipseLoop_attained (inp : EclipseInput) :
    ∀ l : List (ℕ × OccBody), ∀ f : ℝ,
      eclipseLoop inp l f = f ∨
      ∃ i p, (i, p) ∈ l ∧ ¬(i = inp.sunIdx ∨ i = inp.currentIdx) ∧
        eclipseLoop inp l f =
          contribution inp.sunRadius inp.lightTimeSunPosition inp.observerPos
            p.modelPos p.radius := by
  intro l
  induction l with
  | nil => intro f; exact Or.inl rfl
  | cons e rest ih =>
    intro f
    rcases e with ⟨j, q⟩
    rw [eclipseLoop]
    dsimp only
    split_ifs with hskip hlt
    · rcases ih f with h | ⟨i, p, hm, hs, he⟩
      · exact Or.inl h
      · exact Or.inr ⟨i, p, List.mem_cons_of_mem _ hm, hs, he⟩
    · rcases ih (contribution inp.sunRadius inp.lightTimeSunPosition
          inp.observerPos q.modelPos q.radius) with h | ⟨i, p, hm, hs, he⟩
      · exact Or.inr ⟨j, q, List.mem_cons_self _ _, hskip, h⟩
      · exact Or.inr ⟨i, p, List.mem_cons_of_mem _ hm, hs, he⟩
    · rcases ih f with h | ⟨i, p, hm, hs, he⟩
      · exact Or.inl h
      · exact Or.inr ⟨i, p, List.mem_cons_of_mem _ hm, hs, he⟩

/-- A value paired with an index in an enumeration is a member of the
underlying list. -/
theorem mem_enumFrom_mem :
    ∀ (l : List OccBody) (n i : ℕ) (p : OccBody),
      (i, p) ∈ List.enumFrom n l → p ∈ l := by
  intro l
  induction l with
  | nil => intro n i p h; exact absurd h (List.not_mem_nil _)
  | cons q rest ih =>
    intro n i p h
    have h2 : (i, p) ∈ (n, q) :: List.enumFrom (n + 1) rest := h
    rcases List.mem_cons.mp h2 with heq | h3
    · injection heq with _ hqp
      rw [hqp]
      exact List.mem_cons_self _ _
    · exact List.mem_cons_of_mem _ (ih (n + 1) i p h3)

/-- Membership in the occluder list, phrased through the enumeration. -/
theorem mem_occluders (inp : EclipseInput) (p : OccBody) :
    p ∈ occluders inp ↔
      ∃ i, (i, p) ∈ inp.systemPlanets.enum ∧
        ¬(i = inp.sunIdx ∨ i = inp.currentIdx) := by
  constructor
  · intro hp
    rcases List.mem_map.mp hp with ⟨⟨i, q⟩, hmf, heq⟩
    rcases List.mem_filter.mp hmf with ⟨hm, hpred⟩
    cases heq
    refine ⟨i, hm, ?_⟩
    simpa using hpred
  · rintro ⟨i, hm, hni⟩
    apply List.mem_map.mpr
    refine ⟨(i, p), List.mem_filter.mpr ⟨hm, ?_⟩, rfl⟩
    simpa using hni

/-- Claim C3: with nonnegative source and body radii, `getEclipseFactor`
returns a scalar in `[0,1]`; every body other than the light source and the
observer's body contributes through the four-regime `contribution`, the
result is a lower bound of every occluder's contribution, it equals `1` when
there is no occluder, and otherwise it is attained by some occluder — i.e.
it is the minimum contribution across all occluders. -/
theorem getEclipseFactor_spec (inp : EclipseInput)
    (hRS : 0 ≤ inp.sunRadius)
    (hrad : ∀ p ∈ inp.systemPlanets, 0 ≤ p.radius) :
    getEclipseFactor inp ∈ Set.Icc (0 : ℝ) 1 ∧
    (∀ p ∈ occluders inp,
      getEclipseFactor inp ≤
        contribution inp.sunRadius inp.lightTimeSunPosition inp.observerPos
          p.modelPos p.radius) ∧
    (occluders inp = [] → getEclipseFactor inp = 1) ∧
    (occluders inp ≠ [] →
      ∃ p ∈ occluders inp,
        getEclipseFactor inp =
          contribution inp.sunRadius inp.lightTimeSunPosition inp.observerPos
            p.modelPos p.radius) := by
  have hradE : ∀ e ∈ inp.systemPlanets.enum, 0 ≤ (Prod.snd e).radius := by
    rintro ⟨i, q⟩ he
    exact hrad q (mem_enumFrom_mem inp.systemPlanets 0 i q he)
  refine ⟨?_, ?_, ?_, ?_⟩
  · exact eclipseLoop_mem_Icc inp hRS inp.systemPlanets.enum 1 hradE
      (by rw [Set.mem_Icc]; exact ⟨zero_le_one, le_refl 1⟩)
  · intro p hp
    rcases (mem_occluders inp p).mp hp with ⟨i, hm, hs⟩
    exact eclipseLoop_le_mem inp inp.systemPlanets.enum 1 i p hm hs
  · intro hemp
    rcases eclipseLoop_attained inp inp.systemPlanets.enum 1 with h | ⟨i, p, hm, hs, _⟩
    · exact h
    · exfalso
      have hocc : p ∈ occluders inp := (mem_occluders inp p).mpr ⟨i, hm, hs⟩
      rw [hemp] at hocc
      exact absurd hocc (List.not_mem_nil _)
  · intro hne
    rcases eclipseLoop_attained inp inp.systemPlanets.enum 1 with h | ⟨i, p, hm, hs, he⟩
    · rcases List.exists_mem_of_ne_nil _ hne with ⟨q, hq⟩
      refine ⟨q, hq, ?_⟩
      rcases (mem_occluders inp q).mp hq with ⟨iq, hmq, hsq⟩
      have hle : getEclipseFactor inp ≤
          contribution inp.sunRadius inp.lightTimeSunPosition inp.observerPos
            q.modelPos q.radius :=
        eclipseLoop_le_mem inp inp.systemPlanets.enum 1 iq q hmq hsq
      have hc := contribution_mem inp.sunRadius inp.lightTimeSunPosition
        inp.observerPos q.modelPos q.radius hRS
        (hrad q (mem_enumFrom_mem inp.systemPlanets 0 iq q hmq))
      rw [Set.mem_Icc] at hc
      have h1 : getEclipseFactor inp = 1 := h
      rw [h1]
      rw [h1] at hle
      linarith [hc.2]
    · exact ⟨p, (mem_occluders inp p).mpr ⟨i, hm, hs⟩, he⟩

/-- Witness: the eclipse-factor specification instantiated on a concrete
two-body input with nonnegative radii. -/
theorem getEclipseFactor_spec_witness :
    (0 : ℝ) ≤ c3inp.sunRadius ∧ (∀ p ∈ c3inp.systemPlanets, 0 ≤ p.radius) ∧
    (getEclipseFactor c3inp ∈ Set.Icc (0 : ℝ) 1 ∧
    (∀ p ∈ occluders c3inp,
      getEclipseFactor c3inp ≤
        contribution c3inp.sunRadius c3inp.lightTimeSunPosition c3inp.observerPos
          p.modelPos p.radius) ∧
    (occluders c3inp = [] → getEclipseFactor c3inp = 1) ∧
    (occluders c3inp ≠ [] →
      ∃ p ∈ occluders c3inp,
        getEclipseFactor c3inp =
          contribution c3inp.sunRadius c3inp.lightTimeSunPosition c3inp.observerPos
            p.modelPos p.radius)) :=
  ⟨zero_le_one,
   by
     intro p hp
     rcases List.mem_cons.mp hp with h | h
     · rw [h]; exact zero_le_one
     · rcases List.mem_cons.mp h with h2 | h2
       · rw [h2]; exact zero_le_one
       · exact absurd h2 (List.not_mem_nil _),
   getEclipseFactor_spec c3inp zero_le_one
     (by
       intro p hp
       rcases List.mem_cons.mp hp with h | h
       · rw [h]; exact zero_le_one
       · rcases List.mem_cons.mp h with h2 | h2
         · rw [h2]; exact zero_le_one
         · exact absurd h2 (List.not_mem_nil _))⟩

end Stellarium
